import Mathlib

set_option maxRecDepth 20000

/-!
Shallow embedding of the symbol-table merge / R.java code-generation core of
src/android/gyp/process_resources.py (functions CreateExtraRJavaFiles and
CreateExtraRJavaFile), a Python 2 program.  Text is modelled as List Char,
files as their contents, and the file system as explicit inputs (contents of
files that exist) and outputs (the list of (path, contents) pairs written).
Python dicts are modelled with CPython 2.7 semantics: an 8-slot open-addressing
table using the CPython 2.7 64-bit string hash, whose iteration order is slot
order (not insertion order).  Errors raised by the Python code are modelled as
values of type PyErr.
-/

/-- ASCII word character, the class backslash-w of a Python 2 bytes regex. -/
def wordChar (c : Char) : Bool :=
  ('a' ≤ c && c ≤ 'z') || ('A' ≤ c && c ≤ 'Z') || ('0' ≤ c && c ≤ '9') || c = '_'

/-- Character class of the pattern in re.sub at line 132: a word character or a dot. -/
def wordDotChar (c : Char) : Bool :=
  wordChar c || c = '.'

/-- Iterating an open Python 2 file yields the lines of its text, each keeping its
trailing newline; a final segment with no newline is yielded as-is; an empty file
yields nothing. -/
def pyLines : List Char → List (List Char)
  | [] => []
  | c :: rest =>
    if c = '\n' then ['\n'] :: pyLines rest
    else
      match pyLines rest with
      | [] => [[c]]
      | l :: ls => (c :: l) :: ls

/-- Matching the leading part int(?:[])? of both R.txt line patterns: returns the
matched java type token and the remainder of the line. -/
def afterInt : List Char → Option (List Char × List Char)
  | 'i' :: 'n' :: 't' :: r =>
    match r with
    | '[' :: ']' :: r2 => some (('i' :: 'n' :: 't' :: '[' :: ']' :: []), r2)
    | _ => some (('i' :: 'n' :: 't' :: []), r)
  | _ => none

/-- Dollar anchor handling of Python re: strip one trailing newline if present. -/
def chopNl (s : List Char) : List Char :=
  if s.getLast? = some '\n' then s.dropLast else s

/-- re.match of the base R.txt line pattern at line 145 of the source,
(int(?:[])?) (w+) (w+) (.+)$, returning (javaType, resourceType, name, value). -/
def matchBaseLine (s : List Char) : Option (List Char × List Char × List Char × List Char) :=
  match afterInt s with
  | none => none
  | some (jt, r1) =>
    match r1 with
    | ' ' :: r2 =>
      let t := r2.takeWhile wordChar
      if t = [] then none else
      match r2.drop t.length with
      | ' ' :: r3 =>
        let n := r3.takeWhile wordChar
        if n = [] then none else
        match r3.drop n.length with
        | ' ' :: r4 =>
          let v := chopNl r4
          if v = [] then none else if '\n' ∈ v then none else some (jt, t, n, v)
        | _ => none
      | _ => none
    | _ => none

/-- re.match of the per-package R.txt line pattern at line 166 of the source,
int(?:[])? (w+) (w+) followed by a space, returning (resourceType, name); the rest
of the line is ignored. -/
def matchOwnLine (s : List Char) : Option (List Char × List Char) :=
  match afterInt s with
  | none => none
  | some (_, r1) =>
    match r1 with
    | ' ' :: r2 =>
      let t := r2.takeWhile wordChar
      if t = [] then none else
      match r2.drop t.length with
      | ' ' :: r3 =>
        let n := r3.takeWhile wordChar
        if n = [] then none else
        match r3.drop n.length with
        | ' ' :: _ => some (t, n)
        | _ => none
      | _ => none
    | _ => none

/-- Errors raised by the embedded Python code: an R.txt line failing its pattern
(Exception at lines 147 and 168), a missing key in the all_resources dict
(KeyError at line 170), and mismatched list lengths (Exception at line 137). -/
inductive PyErr where
  | malformed (line : List Char)
  | keyError (key : List Char × List Char)
  | configError
deriving DecidableEq, Repr

/-- The all_resources dict of CreateExtraRJavaFiles: keys (resourceType, name),
values (javaType, value), as an association list with unique keys. -/
abbrev Table : Type :=
  List ((List Char × List Char) × (List Char × List Char))

/-- Python dict assignment: overwrite the value in place if the key is present,
otherwise append the binding. -/
def dictInsert (k : List Char × List Char) (v : List Char × List Char) :
    Table → Table
  | [] => [(k, v)]
  | (k', v') :: r => if k' = k then (k, v) :: r else (k', v') :: dictInsert k v r

/-- Python dict lookup on the all_resources table. -/
def lookupTable (tbl : Table) (k : List Char × List Char) :
    Option (List Char × List Char) :=
  match tbl with
  | [] => none
  | (k', v) :: r => if k' = k then some v else lookupTable r k

/-- The R.txt parse loop of CreateExtraRJavaFiles (lines 143 to 149): each line must
match the base pattern, and all_resources[(resourceType, name)] is assigned
(javaType, value). -/
def parseRTxtLines : List (List Char) → Table → Except PyErr Table
  | [], acc => Except.ok acc
  | l :: rest, acc =>
    match matchBaseLine l with
    | none => Except.error (PyErr.malformed l)
    | some (jt, t, n, v) => parseRTxtLines rest (dictInsert (t, n) (jt, v) acc)

/-- Parsing the whole base R.txt text. -/
def parseRTxt (s : List Char) : Except PyErr Table :=
  parseRTxtLines (pyLines s) []

/-- Whether an Except value is a success. -/
def exceptOk {ε α : Type} : Except ε α → Bool
  | Except.ok _ => true
  | Except.error _ => false

/-- Inner loop of the CPython 2.7 string hash: x = (1000003*x) xor ord(c), on a
64-bit long (bit pattern modelled as a natural below 2 to the 64). -/
def pyHashLoop : Nat → List Char → Nat
  | x, [] => x
  | x, c :: r => pyHashLoop ((1000003 * x % 2 ^ 64) ^^^ c.toNat) r

/-- Final adjustment of the CPython string hash: a result of all-ones (minus one as
a signed long) becomes minus two. -/
def pyHashFix (x : Nat) : Nat :=
  if x = 2 ^ 64 - 1 then 2 ^ 64 - 2 else x

/-- The CPython 2.7 (64-bit) string hash: x starts at ord(s[0]) shifted left 7, every
character (the first one again included) feeds the loop, the length is xor-ed in at
the end, and a result of all-ones (minus one as a signed long) becomes minus two. -/
def pyHash (s : List Char) : Nat :=
  match s with
  | [] => 0
  | c :: _ => pyHashFix ((pyHashLoop ((c.toNat <<< 7) % 2 ^ 64) s) ^^^ (s.length % 2 ^ 64))

/-- CPython 2.7 open-addressing probe (lookdict) for a fresh key, specialised to an
8-slot table with no deleted entries: start at hash mod 8; while the slot is
occupied, step i to 5*i + perturb + 1 and shift perturb right by 5.  Fuel bounds
the recursion; 64 steps always suffice for a table with a free slot. -/
def probeFind (slots : List (Option (List Char))) : Nat → Nat → Nat → Nat
  | 0, i, _ => i % 8
  | fuel + 1, i, perturb =>
    if (slots.getD (i % 8) none).isNone then i % 8
    else probeFind slots fuel (5 * i + perturb + 1) (perturb >>> 5)

/-- Slot index at which CPython 2.7 places a fresh string key in an 8-slot dict. -/
def slotFor (slots : List (Option (List Char))) (k : List Char) : Nat :=
  probeFind slots 64 (pyHash k % 8) (pyHash k)

/-- Place a fresh key into the slot table. -/
def slotPlace (slots : List (Option (List Char))) (k : List Char) :
    List (Option (List Char)) :=
  slots.set (slotFor slots k) (some k)

/-- The small table of a fresh CPython 2.7 dict: eight empty slots. -/
def emptySlots : List (Option (List Char)) :=
  [none, none, none, none, none, none, none, none]

/-- The resources dict of CreateExtraRJavaFile: the CPython 2.7 slot table of its
keys (which fixes iteration order) together with the key-to-value association,
values being the appended lists of (name, javaType, value) tuples. -/
structure PyDict where
  slots : List (Option (List Char))
  items : List (List Char × List (List Char × List Char × List Char))
deriving DecidableEq, Repr

/-- The empty resources dict. -/
def emptyPyDict : PyDict :=
  { slots := emptySlots, items := [] }

/-- Keys held by the dict, in insertion order (used only for membership). -/
def itemKeys (d : PyDict) : List (List Char) :=
  d.items.map Prod.fst

/-- Association lookup in the items list. -/
def itemsGet (items : List (List Char × List (List Char × List Char × List Char)))
    (t : List Char) : Option (List (List Char × List Char × List Char)) :=
  match items with
  | [] => none
  | (k, v) :: r => if k = t then some v else itemsGet r t

/-- Append an entry to the list bound to key t. -/
def itemsAppend (items : List (List Char × List (List Char × List Char × List Char)))
    (t : List Char) (e : List Char × List Char × List Char) :
    List (List Char × List (List Char × List Char × List Char)) :=
  match items with
  | [] => []
  | (k, v) :: r => if k = t then (k, v ++ [e]) :: r else (k, v) :: itemsAppend r t e

/-- Lines 171 to 173 of the source: if resource_type not in resources, insert the
new key (CPython places it in a slot of the 8-slot table); then append
(name, javaType, value) to resources[resource_type]. -/
def pdAppend (d : PyDict) (t : List Char) (e : List Char × List Char × List Char) :
    PyDict :=
  if (itemsGet d.items t).isSome then
    { d with items := itemsAppend d.items t e }
  else
    { slots := slotPlace d.slots t, items := d.items ++ [(t, [e])] }

/-- Iteration order of the resources dict: slot order of the CPython 2.7 table. -/
def typesOrder (d : PyDict) : List (List Char) :=
  d.slots.filterMap id

/-- The entry list rendered for one resource type. -/
def entriesFor (d : PyDict) (t : List Char) :
    List (List Char × List Char × List Char) :=
  (itemsGet d.items t).getD []

/-- The parse loop of CreateExtraRJavaFile (lines 164 to 173): match each line of the
package R.txt against the own-line pattern, look the pair up in all_resources (a
miss is a KeyError), and append to the resources dict. -/
def buildResLines (tbl : Table) : List (List Char) → PyDict → Except PyErr PyDict
  | [], d => Except.ok d
  | l :: rest, d =>
    match matchOwnLine l with
    | none => Except.error (PyErr.malformed l)
    | some (t, n) =>
      match lookupTable tbl (t, n) with
      | none => Except.error (PyErr.keyError (t, n))
      | some (jt, v) => buildResLines tbl rest (pdAppend d t (n, jt, v))

/-- Building the resources dict of CreateExtraRJavaFile from the package R.txt text. -/
def buildRes (own : List Char) (tbl : Table) : Except PyErr PyDict :=
  buildResLines tbl (pyLines own) emptyPyDict

/-- A DecidableEq instance for Except values of the embedding, so concrete runs can
be settled by decide. -/
instance {ε α : Type} [DecidableEq ε] [DecidableEq α] : DecidableEq (Except ε α) :=
  fun a b =>
    match a, b with
    | Except.ok x, Except.ok y =>
      if h : x = y then isTrue (by rw [h]) else
        isFalse (fun hh => h (Except.ok.inj hh))
    | Except.error x, Except.error y =>
      if h : x = y then isTrue (by rw [h]) else
        isFalse (fun hh => h (Except.error.inj hh))
    | Except.ok _, Except.error _ => isFalse (fun hh => Except.noConfusion hh)
    | Except.error _, Except.ok _ => isFalse (fun hh => Except.noConfusion hh)

/-- One generated field declaration line of the template (8-space indent; the final
modifier is omitted exactly when shared_resources is set). -/
def fieldLine (shared : Bool) (jt n v : List Char) : List Char :=
  if shared then
    ("        public static ").toList ++ jt ++ [' '] ++ n ++ (" = ").toList ++ v ++ [';']
  else
    ("        public static final ").toList ++ jt ++ [' '] ++ n ++ (" = ").toList ++ v ++ [';']

/-- The nested class header line of the template for one resource type. -/
def classHeaderLine (t : List Char) : List Char :=
  ("    public static final class ").toList ++ t ++ (" \x7b").toList

/-- The five leading lines of the template output. -/
def headerLines (pkg : List Char) : List (List Char) :=
  [("/* AUTO-GENERATED FILE.  DO NOT MODIFY. */").toList,
   [],
   ("package ").toList ++ pkg ++ [';'],
   [],
   ("public final class R \x7b").toList]

/-- The lines rendered for one nested resource-type class. -/
def classBlock (shared : Bool) (d : PyDict) (t : List Char) : List (List Char) :=
  classHeaderLine t
    :: (entriesFor d t).map (fun e => fieldLine shared e.2.1 e.1 e.2.2)
    ++ [("    \x7d").toList]

/-- The onResourcesLoaded patch statements rendered for one symbol: a loop over the
elements for an int[] field, a single masked-or assignment otherwise. -/
def patchLines (t : List Char) (e : List Char × List Char × List Char) :
    List (List Char) :=
  if e.2.1 = ("int[]").toList then
    [("        for(int i = 0; i < ").toList ++ t ++ ['.'] ++ e.1 ++ (".length; ++i) \x7b").toList,
     ("            ").toList ++ t ++ ['.'] ++ e.1 ++ ("[i] =").toList,
     ("                    (").toList ++ t ++ ['.'] ++ e.1 ++ ("[i] & 0x00ffffff)").toList,
     ("                    | (packageId << 24);").toList,
     ("        \x7d").toList]
  else
    [("        ").toList ++ t ++ ['.'] ++ e.1 ++ (" =").toList,
     ("                (").toList ++ t ++ ['.'] ++ e.1 ++ (" & 0x00ffffff)").toList,
     ("                | (packageId << 24);").toList]

/-- The onResourcesLoaded routine lines, emitted only when shared_resources is set. -/
def sharedBlock (shared : Bool) (d : PyDict) : List (List Char) :=
  if shared then
    ("    public static void onResourcesLoaded(int packageId) \x7b").toList
      :: (typesOrder d).flatMap (fun t => (entriesFor d t).flatMap (patchLines t))
      ++ [("    \x7d").toList]
  else
    []

/-- All lines of the rendered R.java source, in template order. -/
def renderLines (pkg : List Char) (d : PyDict) (shared : Bool) : List (List Char) :=
  headerLines pkg
    ++ (typesOrder d).flatMap (classBlock shared d)
    ++ sharedBlock shared d
    ++ [['\x7d']]

/-- The rendered R.java text: every line followed by a newline (the template ends in
a newline). -/
def renderRJava (pkg : List Char) (d : PyDict) (shared : Bool) : List Char :=
  (renderLines pkg d shared).flatMap (fun l => l ++ ['\n'])

/-- The field declarations of the rendered source, flattened in render order as
(resourceType, name, javaType, value); each element corresponds to exactly one
generated field declaration line, inside the class of its resource type. -/
def fieldDecls (d : PyDict) : List (List Char × List Char × List Char × List Char) :=
  (typesOrder d).flatMap (fun t => (entriesFor d t).map (fun e => (t, e.1, e.2.1, e.2.2)))

/-- CreateExtraRJavaFile (lines 161 to 216): build the resources dict from the
package R.txt and render the template; the write of the output file is left to
the caller model. -/
def createExtraRJavaFile (pkg : List Char) (own : List Char) (tbl : Table)
    (shared : Bool) : Except PyErr (List Char) :=
  (buildRes own tbl).map (fun d => renderRJava pkg d shared)

/-- After the literal and the space, the greedy run of word or dot characters must
be followed by a semicolon; the full match then has length 9 plus the run. -/
def matchPkgAfter (u : List Char) : Option Nat :=
  match u.drop (u.takeWhile wordDotChar).length with
  | ';' :: _ => some (9 + (u.takeWhile wordDotChar).length)
  | _ => none

/-- Length of the leftmost match of the pattern (package followed by a space, then
any run of word or dot characters, then a semicolon) when it matches at the head of
s: the literal, the greedy run, and the terminating semicolon. -/
def matchPkgLen (s : List Char) : Option Nat :=
  if ("package ").toList.isPrefixOf s then matchPkgAfter (s.drop 8)
  else none

/-- Fuel-indexed scanner of Python re.sub with the package pattern: at each
position try the pattern; on a match emit the replacement and continue after the
match, otherwise keep the character and move on. -/
def pySubPkgF (repl : List Char) : Nat → List Char → List Char
  | 0, s => s
  | _ + 1, [] => []
  | fuel + 1, c :: t =>
    match matchPkgLen (c :: t) with
    | some n => repl ++ pySubPkgF repl fuel ((c :: t).drop n)
    | none => c :: pySubPkgF repl fuel t

/-- re.sub of the package pattern (line 132 of the source): replace every
non-overlapping leftmost match in the text by the replacement. -/
def pySubPkg (repl : List Char) (s : List Char) : List Char :=
  pySubPkgF repl s.length s

/-- The replacement text used at line 132: package, a space, the target package
name, and a semicolon. -/
def pkgRepl (pkg : List Char) : List Char :=
  ("package ").toList ++ pkg ++ [';']

/-- The split of a package name at its dots, as Python str.split of a dot. -/
def splitDots : List Char → List (List Char)
  | [] => [[]]
  | c :: r =>
    if c = '.' then [] :: splitDots r
    else
      match splitDots r with
      | [] => [[c]]
      | l :: ls => (c :: l) :: ls

/-- Joining path segments with the path separator, as os.path.join does. -/
def joinSlash : List (List Char) → List Char
  | [] => []
  | [l] => l
  | l :: ls => l ++ '/' :: joinSlash ls

/-- Output path of the generated file for one package: r_dir joined with the
dot-separated package segments and R.java (os.path.join at lines 129 to 131). -/
def rJavaPathOf (rdir : List Char) (pkg : List Char) : List Char :=
  rdir ++ '/' :: joinSlash (splitDots pkg) ++ ("/R.java").toList

/-- The per-package loop of CreateExtraRJavaFiles (lines 151 to 158): packages whose
R.txt does not exist are skipped; otherwise CreateExtraRJavaFile runs and its
output is written; an exception aborts the loop, keeping the writes already made. -/
def processPkgs (shared : Bool) (rdir : List Char) (tbl : Table) :
    List (List Char × Option (List Char)) → List (List Char × List Char) × Option PyErr
  | [] => ([], none)
  | (_, none) :: rest => processPkgs shared rdir tbl rest
  | (pkg, some own) :: rest =>
    match createExtraRJavaFile pkg own tbl shared with
    | Except.error e => ([], some e)
    | Except.ok content =>
      let r := processPkgs shared rdir tbl rest
      ((rJavaPathOf rdir pkg, content) :: r.1, r.2)

/-- CreateExtraRJavaFiles (lines 119 to 158).  Inputs stand for the observable file
system: javaFiles are the contents of the R.java files FindInDirectory locates
under r_dir, baseRTxt is the content of r_dir/R.txt when it exists, and each
element of ownRTxts is the content of the corresponding extra R.txt when that file
exists.  The result is the list of (path, content) writes performed, in order, and
the exception that aborted the run, if any; a later write to the path of an
earlier one overwrites it. -/
def createExtraRJavaFiles (rdir : List Char) (javaFiles : List (List Char))
    (baseRTxt : Option (List Char)) (extraPackages : List (List Char))
    (ownRTxts : List (Option (List Char))) (shared includeAll : Bool) :
    List (List Char × List Char) × Option PyErr :=
  if includeAll then
    match javaFiles with
    | [c] =>
      (extraPackages.map (fun p => (rJavaPathOf rdir p, pySubPkg (pkgRepl p) c)),
       none)
    | _ => ([], none)
  else
    if extraPackages.length ≠ ownRTxts.length then ([], some PyErr.configError)
    else
      match baseRTxt with
      | none => ([], none)
      | some txt =>
        match parseRTxt txt with
        | Except.error e => ([], some e)
        | Except.ok tbl => processPkgs shared rdir tbl (extraPackages.zip ownRTxts)

/-- The observable file system after a sequence of writes, each opening its path in
write mode and replacing any previous content: the content at a path is that of the
last write to it in the list, if any write targeted it. -/
def fileAfterWrites (ws : List (List Char × List Char)) (path : List Char) :
    Option (List Char) :=
  match ws with
  | [] => none
  | (q, c) :: rest =>
    match fileAfterWrites rest path with
    | some c2 => some c2
    | none => if q = path then some c else none

/-- Base symbol table used in the C8 witness: two symbols of one type. -/
def c8Tbl : Table :=
  [((("t").toList, ("a").toList), (("int").toList, ("0x1").toList)),
   ((("t").toList, ("b").toList), (("int").toList, ("0x2").toList))]

/-- First own R.txt of the C8 witness: it selects symbol a only. -/
def c8Own1 : List Char := ("int t a 0x1\n").toList

/-- Second own R.txt of the C8 witness: it selects symbol b only. -/
def c8Own2 : List Char := ("int t b 0x2\n").toList

/-- Rendered output for the first own R.txt of the C8 witness. -/
def c8Out1 : List Char :=
  ("/* AUTO-GENERATED FILE.  DO NOT MODIFY. */\n\npackage a.b;\n\npublic final class R \x7b\n    public static final class t \x7b\n        public static final int a = 0x1;\n    \x7d\n\x7d\n").toList

/-- Rendered output for the second own R.txt of the C8 witness. -/
def c8Out2 : List Char :=
  ("/* AUTO-GENERATED FILE.  DO NOT MODIFY. */\n\npackage a.b;\n\npublic final class R \x7b\n    public static final class t \x7b\n        public static final int b = 0x2;\n    \x7d\n\x7d\n").toList

/-- Java semantics of the emitted scalar patch statement (template lines 202 to 204):
value = (value & 0x00ffffff) | (packageId << 24), on 32-bit ints whose bit
patterns are modelled as naturals below 2 to the 32; the shift wraps modulo 2 to
the 32 as a Java int shift does. -/
def javaPatchScalar (packageId v : Nat) : Nat :=
  (v &&& 0xffffff) ||| ((packageId <<< 24) % 2 ^ 32)

/-- Java semantics of the emitted array patch loop (template lines 196 to 200):
for i from 0 while i below the length, replace the element at i by its patched
value. -/
def javaPatchLoop (p : Nat) : Nat → List Nat → Nat → List Nat
  | 0, a, _ => a
  | fuel + 1, a, i =>
    if i < a.length then javaPatchLoop p fuel (a.set i (javaPatchScalar p (a.getD i 0))) (i + 1)
    else a

/-- The array form of the patch routine. -/
def javaPatchArray (p : Nat) (a : List Nat) : List Nat :=
  javaPatchLoop p a.length a 0

/-- The write CreateExtraRJavaFiles performs for one (package, own R.txt) pair when
that pair succeeds: none when the R.txt is absent, otherwise the rendered file at
the package path. -/
def pkgWrite (shared : Bool) (rdir : List Char) (tbl : Table)
    (g : List Char × Option (List Char)) : Option (List Char × List Char) :=
  match g.2 with
  | none => none
  | some own =>
    match createExtraRJavaFile g.1 own tbl shared with
    | Except.ok content => some (rJavaPathOf rdir g.1, content)
    | Except.error _ => none

/-- Whether one (package, own R.txt) pair is processed without an exception. -/
def pkgStepOk (shared : Bool) (tbl : Table) (g : List Char × Option (List Char)) :
    Bool :=
  match g.2 with
  | none => true
  | some own => exceptOk (createExtraRJavaFile g.1 own tbl shared)

/-- No position inside the first list starts a match of the package pattern, in the
text formed by appending the second list. -/
def cleanBefore : List Char → List Char → Bool
  | [], _ => true
  | c :: s, b => (matchPkgLen (c :: (s ++ b))).isNone && cleanBefore s b

/-- The probe recurrence once the perturbation has decayed to zero: i goes to 5*i+1. -/
def lcgIter : Nat → Nat → Nat
  | 0, i => i
  | n + 1, i => lcgIter n (5 * i + 1)

/-- One step of the CPython 2.7 dict key-insertion fold: a key already present is
skipped; a fresh key is placed in a slot and recorded.  The state carries the slot
table and the keys inserted so far in first-seen order. -/
def dictOrderStep (st : List (Option (List Char)) × List (List Char))
    (t : List Char) : List (Option (List Char)) × List (List Char) :=
  if t ∈ st.2 then st else (slotPlace st.1 t, st.2 ++ [t])

/-- Iteration order of a CPython 2.7 dict whose string keys arrive in the given
order: first occurrences are placed into the 8-slot table, and iteration reads the
slots in index order.  Faithful to CPython for at most five distinct keys (one
8-slot table, never resized). -/
def py2DictOrder (ts : List (List Char)) : List (List Char) :=
  ((ts.foldl dictOrderStep (emptySlots, [])).1).filterMap id

/-- The (resourceType, name) references of a package R.txt, in file order. -/
def ownPairs (own : List Char) : List (List Char × List Char) :=
  (pyLines own).filterMap matchOwnLine

/-- The resource types referenced by a package R.txt, in file order, with repeats. -/
def ownTypes (own : List Char) : List (List Char) :=
  (ownPairs own).map Prod.fst

/-- The resolved entry one own-list line contributes to resource type t, if any. -/
def ownEntryFor (tbl : Table) (t : List Char) (l : List Char) :
    Option (List Char × List Char × List Char) :=
  match matchOwnLine l with
  | none => none
  | some (t', n) =>
    if t' = t then (lookupTable tbl (t', n)).map (fun jv => (n, jv.1, jv.2)) else none

/-- Recogniser for the nested-class header lines of the rendered source. -/
def isClassHeaderLine (l : List Char) : Bool :=
  ("    public static final class ").toList.isPrefixOf l

/-- The own-symbol-list of the order counterexample: type b is encountered before
type a. -/
def cxOwn : List Char :=
  ("int b x 0x1\nint a y 0x2\n").toList

/-- Base table resolving the two symbols of the counterexample list. -/
def cxTbl : Table :=
  [((("b").toList, ("x").toList), (("int").toList, ("0x1").toList)),
   ((("a").toList, ("y").toList), (("int").toList, ("0x2").toList))]

/-- The resources dict the code builds from cxOwn: key b hashes to slot 3 and key a
to slot 0, so iteration yields a before b although b was first encountered. -/
def cxDict : PyDict :=
  { slots := [some (("a").toList), none, none, some (("b").toList),
              none, none, none, none],
    items := [(("b").toList, [(("x").toList, ("int").toList, ("0x1").toList)]),
              (("a").toList, [(("y").toList, ("int").toList, ("0x2").toList)])] }

/-- Recogniser for the generated field declaration lines (non-shared form). -/
def isFieldDeclLine (l : List Char) : Bool :=
  ("        public static ").toList.isPrefixOf l

/-- Own-symbol-list mentioning the same pair twice. -/
def c6Own : List Char :=
  ("int a x 0x1\nint a x 0x1\n").toList

/-- Base table resolving that pair. -/
def c6Tbl : Table :=
  [((("a").toList, ("x").toList), (("int").toList, ("0x7f01").toList))]

/-- The resources dict produced from c6Own: type a in slot 0, with the entry for
name x appended once per occurrence. -/
def c6Dict : PyDict :=
  { slots := [some (("a").toList), none, none, none, none, none, none, none],
    items := [(("a").toList,
      [(("x").toList, ("int").toList, ("0x7f01").toList),
       (("x").toList, ("int").toList, ("0x7f01").toList)])] }

example : pyLines ("ab\n\ncd".toList) = [('a' :: 'b' :: '\n' :: []), ('\n' :: []), ('c' :: 'd' :: [])] := by decide

example : (matchBaseLine ("int string foo 0x7f010001\n".toList)).isSome = true := by decide

example : matchBaseLine ("int[] styleable x 0x1, 0x2\n".toList) =
    some (("int[]".toList, "styleable".toList, "x".toList, "0x1, 0x2".toList)) := by decide

example : (matchBaseLine ("\n".toList)).isSome = false := by decide

example : matchOwnLine ("int string foo 0x7f010001\n".toList) =
    some (("string".toList, "foo".toList)) := by decide

example : (matchOwnLine ("int string foo\n".toList)).isSome = false := by decide

example : pyHash ("a".toList) = 12416037344 := by decide

example : pyHash ("a".toList) % 8 = 0 := by decide

example : pyHash ("b".toList) % 8 = 3 := by decide

example : (buildRes ("int b x 0x1\nint a y 0x2\n".toList)
    [(("b".toList, "x".toList), ("int".toList, "0x1".toList)),
     (("a".toList, "y".toList), ("int".toList, "0x2".toList))]).map typesOrder =
    Except.ok [("a".toList), ("b".toList)] := by decide

example : pySubPkg (pkgRepl ("NEW".toList)) ("xpackage a; package b;".toList) =
    ("xpackage NEW; package NEW;".toList) := by decide

example : pySubPkg (pkgRepl ("NEW".toList)) ("package package a.b;;".toList) =
    ("package package NEW;;".toList) := by decide

example : pySubPkg (pkgRepl ("NEW".toList)) ("package a.b ;".toList) =
    ("package a.b ;".toList) := by decide

example : javaPatchScalar 0x7f 0x00010203 = 0x7f010203 := by decide

example : javaPatchArray 0x7f [0x00000001, 0x00ffffff] = [0x7f000001, 0x7fffffff] := by decide

lemma hexMask_eq : (0xffffff : Nat) = 2 ^ 24 - 1 := by norm_num

lemma shiftLeft24_mod_eq {p : Nat} (h : p < 2 ^ 8) : (p <<< 24) % 2 ^ 32 = p <<< 24 := by
  have : p <<< 24 < 2 ^ 32 := by
    rw [Nat.shiftLeft_eq]
    have h8 : (2 : Nat) ^ 8 = 256 := by norm_num
    have h24 : (2 : Nat) ^ 24 = 16777216 := by norm_num
    have h32 : (2 : Nat) ^ 32 = 4294967296 := by norm_num
    rw [h24, h32]
    rw [h8] at h
    omega
  exact Nat.mod_eq_of_lt this

lemma javaPatchScalar_closed_form {p : Nat} (h : p < 2 ^ 8) (v : Nat) :
    javaPatchScalar p v = (v &&& 0xffffff) ||| (p <<< 24) := by
  unfold javaPatchScalar
  rw [shiftLeft24_mod_eq h]

lemma javaPatchLoop_spec (p : Nat) :
    ∀ (suf pre : List Nat),
      javaPatchLoop p suf.length (pre ++ suf) pre.length =
        pre ++ suf.map (javaPatchScalar p) := by
  intro suf
  induction suf with
  | nil => intro pre; simp [javaPatchLoop]
  | cons v r ih =>
    intro pre
    have hlen : pre.length < (pre ++ v :: r).length := by
      simp
    have hget : (pre ++ v :: r).getD pre.length 0 = v := by
      rw [List.getD_eq_getElem?_getD, List.getElem?_append_right (Nat.le_refl _)]
      simp
    have hset : (pre ++ v :: r).set pre.length (javaPatchScalar p v) =
        (pre ++ [javaPatchScalar p v]) ++ r := by
      rw [List.set_append_right _ _ (Nat.le_refl _)]
      simp
    show javaPatchLoop p (r.length + 1) (pre ++ v :: r) pre.length = _
    rw [javaPatchLoop, if_pos hlen, hget, hset]
    have hidx : pre.length + 1 = (pre ++ [javaPatchScalar p v]).length := by simp
    rw [hidx, ih (pre ++ [javaPatchScalar p v])]
    simp

lemma javaPatchArray_map (p : Nat) (a : List Nat) :
    javaPatchArray p a = a.map (javaPatchScalar p) := by
  have := javaPatchLoop_spec p a []
  simpa [javaPatchArray] using this

lemma javaPatchScalar_idem (p v : Nat) :
    javaPatchScalar p (javaPatchScalar p v) = javaPatchScalar p v := by
  apply Nat.eq_of_testBit_eq
  intro i
  unfold javaPatchScalar
  rw [hexMask_eq]
  simp only [Nat.testBit_or, Nat.testBit_and, Nat.testBit_two_pow_sub_one]
  by_cases h24 : i < 24
  · simp [h24]
  · simp [h24]

/-- C1: for every scalar resource field with 32-bit value v and every 8-bit
packageId, the generated load-time patch routine replaces v with
(v AND 0x00FFFFFF) OR (packageId shifted left 24), applies the identical transform
elementwise to every array field, and in particular maps 0x00010203 to 0x7F010203
for packageId 0x7F, and the array [0x00000001, 0x00FFFFFF] to
[0x7F000001, 0x7FFFFFFF]. -/
theorem patch_routine_spec (p v : Nat) (arr : List Nat)
    (hp : p < 2 ^ 8) (_hv : v < 2 ^ 32) :
    javaPatchScalar p v = ((v &&& 0xffffff) ||| (p <<< 24))
    ∧ javaPatchArray p arr = arr.map (javaPatchScalar p)
    ∧ javaPatchScalar 0x7f 0x00010203 = 0x7f010203
    ∧ javaPatchArray 0x7f [0x00000001, 0x00ffffff] = [0x7f000001, 0x7fffffff] := by
  refine ⟨javaPatchScalar_closed_form hp v, javaPatchArray_map p arr, by decide, by decide⟩

/-- Witness for C1 at packageId 0x7F, value 0x00010203 and the array of the claim. -/
theorem patch_routine_spec_witness :
    (0x7f : Nat) < 2 ^ 8 ∧ (0x00010203 : Nat) < 2 ^ 32 ∧
      (javaPatchScalar 0x7f 0x00010203 = ((0x00010203 &&& 0xffffff) ||| (0x7f <<< 24))
        ∧ javaPatchArray 0x7f [0x00000001, 0x00ffffff] =
            ([0x00000001, 0x00ffffff] : List Nat).map (javaPatchScalar 0x7f)
        ∧ javaPatchScalar 0x7f 0x00010203 = 0x7f010203
        ∧ javaPatchArray 0x7f [0x00000001, 0x00ffffff] = [0x7f000001, 0x7fffffff]) :=
  ⟨by decide, by decide,
    patch_routine_spec 0x7f 0x00010203 [0x00000001, 0x00ffffff] (by decide) (by decide)⟩

/-- C9: the patch transform is idempotent for a fixed packageId, and applying it
with a second, different packageId can change the value again. -/
theorem patch_idempotent_fixed_id :
    (∀ p v : Nat, p < 2 ^ 8 → v < 2 ^ 32 →
        javaPatchScalar p (javaPatchScalar p v) = javaPatchScalar p v)
    ∧ (javaPatchScalar 2 (javaPatchScalar 1 0) ≠ javaPatchScalar 1 0 ∧ (1 : Nat) ≠ 2) := by
  refine ⟨fun p v _ _ => javaPatchScalar_idem p v, by decide, by decide⟩

/-- Witness for C9 at packageId 3 and value 5. -/
theorem patch_idempotent_fixed_id_witness :
    javaPatchScalar 3 (javaPatchScalar 3 5) = javaPatchScalar 3 5 :=
  patch_idempotent_fixed_id.1 3 5 (by decide) (by decide)

/-- C10: in include-all mode the package-count versus R.txt-count precondition is
never checked; for lists of unequal length the operation still completes without
the count-mismatch error, because the include-all branch returns before the
length check is reached. -/
theorem include_all_skips_count_check (rdir : List Char) (javaFiles : List (List Char))
    (baseRTxt : Option (List Char)) (extraPackages : List (List Char))
    (ownRTxts : List (Option (List Char))) (shared : Bool)
    (_h : extraPackages.length ≠ ownRTxts.length) :
    (createExtraRJavaFiles rdir javaFiles baseRTxt extraPackages ownRTxts
        shared true).2 = none := by
  unfold createExtraRJavaFiles
  cases javaFiles with
  | nil => rfl
  | cons c rest =>
    cases rest with
    | nil => rfl
    | cons d r => rfl

/-- Witness for C10: two packages, zero R.txt files, include-all mode, no error. -/
theorem include_all_skips_count_check_witness :
    ([("a").toList, ("b").toList]).length ≠ ([] : List (Option (List Char))).length ∧
      (createExtraRJavaFiles (("gen").toList) [] none [("a").toList, ("b").toList]
          [] false true).2 = none :=
  ⟨by decide, include_all_skips_count_check (("gen").toList) [] none
    [("a").toList, ("b").toList] [] false (by decide)⟩

/-- C8 counterexample: with one source class and the same target package listed
twice, the include-all run writes the same output path twice and raises no error,
although the claim requires the second write to such a location to fail loudly. -/
theorem output_collision_counterexample :
    (createExtraRJavaFiles (("gen").toList) [("package a.b;\n".toList)] none
        [("a.b").toList, ("a.b").toList] [] false true).2 = none
    ∧ ((createExtraRJavaFiles (("gen").toList) [("package a.b;\n".toList)] none
        [("a.b").toList, ("a.b").toList] [] false true).1).map Prod.fst =
        [("gen/a/b/R.java").toList, ("gen/a/b/R.java").toList] := by
  constructor
  · rfl
  · decide

/-- C8 amended: the generation step performs no output-path collision check at
either write site.  In include-all mode (lines 128 to 134) a package listed twice is
written twice to the same path with no error; in the filtered branch (lines 151 to
158) two list entries naming the same package, whose own R.txt files both render,
are both written to the same path with no error, and the file system afterwards
holds the content of the later write: the later write silently overwrites the
earlier one, even when the two contents differ. -/
theorem output_collision_amended (rdir : List Char) (c : List Char)
    (baseRTxt : Option (List Char)) (ownRTxts : List (Option (List Char)))
    (shared : Bool) (pkg : List Char) (tbl : Table) (own1 own2 c1 c2 : List Char)
    (h1 : createExtraRJavaFile pkg own1 tbl shared = Except.ok c1)
    (h2 : createExtraRJavaFile pkg own2 tbl shared = Except.ok c2) :
    ((createExtraRJavaFiles rdir [c] baseRTxt [pkg, pkg] ownRTxts shared true).2 = none
      ∧ ((createExtraRJavaFiles rdir [c] baseRTxt [pkg, pkg] ownRTxts shared true).1).map
          Prod.fst = [rJavaPathOf rdir pkg, rJavaPathOf rdir pkg])
    ∧ processPkgs shared rdir tbl [(pkg, some own1), (pkg, some own2)] =
        ([(rJavaPathOf rdir pkg, c1), (rJavaPathOf rdir pkg, c2)], none)
    ∧ fileAfterWrites ((processPkgs shared rdir tbl
          [(pkg, some own1), (pkg, some own2)]).1) (rJavaPathOf rdir pkg) =
        some c2 := by
  have hp : processPkgs shared rdir tbl [(pkg, some own1), (pkg, some own2)] =
      ([(rJavaPathOf rdir pkg, c1), (rJavaPathOf rdir pkg, c2)], none) := by
    unfold processPkgs
    rw [h1]
    dsimp only
    unfold processPkgs
    rw [h2]
    rfl
  refine ⟨⟨rfl, rfl⟩, hp, ?_⟩
  rw [hp]
  simp [fileAfterWrites]

/-- Witness for C8: a concrete run where the same package is listed twice.  In
include-all mode both writes target gen/a/b/R.java with no error; in the filtered
branch the two own R.txt files render to two different contents, both written to
gen/a/b/R.java with no error, and the file system afterwards holds the later
content. -/
theorem output_collision_amended_witness :
    c8Out1 ≠ c8Out2 ∧
    (((createExtraRJavaFiles (("gen").toList) [("package a.b;\n").toList] none
        [("a.b").toList, ("a.b").toList] [] false true).2 = none
      ∧ ((createExtraRJavaFiles (("gen").toList) [("package a.b;\n").toList] none
        [("a.b").toList, ("a.b").toList] [] false true).1).map Prod.fst =
          [rJavaPathOf (("gen").toList) (("a.b").toList),
           rJavaPathOf (("gen").toList) (("a.b").toList)])
    ∧ processPkgs false (("gen").toList) c8Tbl
        [(("a.b").toList, some c8Own1), (("a.b").toList, some c8Own2)] =
        ([(rJavaPathOf (("gen").toList) (("a.b").toList), c8Out1),
          (rJavaPathOf (("gen").toList) (("a.b").toList), c8Out2)], none)
    ∧ fileAfterWrites ((processPkgs false (("gen").toList) c8Tbl
          [(("a.b").toList, some c8Own1), (("a.b").toList, some c8Own2)]).1)
        (rJavaPathOf (("gen").toList) (("a.b").toList)) = some c8Out2) :=
  ⟨by decide, output_collision_amended (("gen").toList) (("package a.b;\n").toList)
      none [] false (("a.b").toList) c8Tbl c8Own1 c8Own2 c8Out1 c8Out2
      (by decide) (by decide)⟩

lemma mem_keys_dictInsert {x k : List Char × List Char} {v : List Char × List Char} :
    ∀ {tbl : Table}, x ∈ (dictInsert k v tbl).map Prod.fst ↔ x = k ∨ x ∈ tbl.map Prod.fst := by
  intro tbl
  induction tbl with
  | nil => simp [dictInsert]
  | cons h r ih =>
    obtain ⟨k', v'⟩ := h
    by_cases hk : k' = k
    · subst hk
      simp [dictInsert]
      try tauto
    · simp [dictInsert, hk, ih]
      try tauto

lemma dictInsert_keys_nodup {k v : List Char × List Char} :
    ∀ {tbl : Table}, (tbl.map Prod.fst).Nodup → ((dictInsert k v tbl).map Prod.fst).Nodup := by
  intro tbl
  induction tbl with
  | nil => intro _; simp [dictInsert]
  | cons h r ih =>
    obtain ⟨k', v'⟩ := h
    intro hnd
    simp only [List.map_cons, List.nodup_cons] at hnd
    by_cases hk : k' = k
    · subst hk
      have hins : dictInsert k' v ((k', v') :: r) = (k', v) :: r := by
        simp [dictInsert]
      rw [hins]
      simp only [List.map_cons, List.nodup_cons]
      exact hnd
    · simp only [dictInsert, if_neg hk, List.map_cons, List.nodup_cons]
      refine ⟨fun hc => ?_, ih hnd.2⟩
      rcases mem_keys_dictInsert.mp hc with h1 | h1
      · exact hk h1
      · exact hnd.1 h1

lemma parseRTxtLines_keys_nodup :
    ∀ (ls : List (List Char)) (acc tbl : Table),
      (acc.map Prod.fst).Nodup → parseRTxtLines ls acc = Except.ok tbl →
      (tbl.map Prod.fst).Nodup := by
  intro ls
  induction ls with
  | nil =>
    intro acc tbl h hp
    cases hp
    exact h
  | cons l rest ih =>
    intro acc tbl h hp
    unfold parseRTxtLines at hp
    cases hm : matchBaseLine l with
    | none => rw [hm] at hp; cases hp
    | some q =>
      obtain ⟨jt, t, n, v⟩ := q
      rw [hm] at hp
      exact ih _ _ (dictInsert_keys_nodup h) hp

lemma lookupTable_dictInsert_self (k : List Char × List Char)
    (v : List Char × List Char) :
    ∀ (tbl : Table), lookupTable (dictInsert k v tbl) k = some v := by
  intro tbl
  induction tbl with
  | nil => simp [dictInsert, lookupTable]
  | cons h r ih =>
    obtain ⟨k', v'⟩ := h
    by_cases hk : k' = k
    · subst hk
      simp [dictInsert, lookupTable]
    · simp [dictInsert, hk, lookupTable, ih]

/-- C3 counterexample: a base symbol table whose two lines declare the same
(resourceType, name) pair parses successfully, the later line silently
overwriting the earlier value, instead of failing with a parse error as the claim
requires. -/
theorem duplicate_key_counterexample :
    parseRTxt (("int string a 0x1\nint string a 0x2\n").toList) =
      Except.ok [((("string").toList, ("a").toList), (("int").toList, ("0x2").toList))] := by
  decide

/-- C3 amended: a duplicate (resourceType, name) line is not an error: the later
assignment overwrites the earlier one in place (dict assignment, last write
wins), and the resulting table indeed never holds a duplicate key. -/
theorem duplicate_key_amended :
    (∀ s tbl, parseRTxt s = Except.ok tbl → (tbl.map Prod.fst).Nodup)
    ∧ (∀ (k v : List Char × List Char) (tbl : Table),
        lookupTable (dictInsert k v tbl) k = some v) :=
  ⟨fun _ tbl hp => parseRTxtLines_keys_nodup _ [] tbl (by simp) hp,
   fun k v tbl => lookupTable_dictInsert_self k v tbl⟩

/-- Witness for C3 amended, on the duplicate-line table of the counterexample. -/
theorem duplicate_key_amended_witness :
    (([((("string").toList, ("a").toList), (("int").toList, ("0x2").toList))].map
        Prod.fst).Nodup)
    ∧ lookupTable (dictInsert ((("t").toList, ("n").toList)) ((("int").toList, ("0x1").toList)) [])
        ((("t").toList, ("n").toList)) = some ((("int").toList, ("0x1").toList)) :=
  ⟨duplicate_key_amended.1 (("int string a 0x1\nint string a 0x2\n").toList)
      [((("string").toList, ("a").toList), (("int").toList, ("0x2").toList))]
      duplicate_key_counterexample,
   duplicate_key_amended.2 ((("t").toList, ("n").toList)) ((("int").toList, ("0x1").toList)) []⟩

lemma parseRTxtLines_ok_iff :
    ∀ (ls : List (List Char)) (acc : Table),
      exceptOk (parseRTxtLines ls acc) = true ↔ ∀ l ∈ ls, (matchBaseLine l).isSome := by
  intro ls
  induction ls with
  | nil => intro acc; simp [parseRTxtLines, exceptOk]
  | cons l rest ih =>
    intro acc
    unfold parseRTxtLines
    cases hm : matchBaseLine l with
    | none => simp [exceptOk, hm]
    | some q =>
      obtain ⟨jt, t, n, v⟩ := q
      simp only [List.mem_cons]
      constructor
      · intro hok
        intro x hx
        rcases hx with hx | hx
        · subst hx; simp [hm]
        · exact ((ih _).mp hok) x hx
      · intro hall
        exact (ih _).mpr (fun x hx => hall x (Or.inr hx))

/-- C7 amended: parsing the base symbol table fails exactly when some line of the
text, empty lines included, does not match the line pattern; a text parses
successfully precisely when every one of its lines matches.  (The code checks
every line an open file yields, so a text containing an empty line always fails,
contrary to the claim.) -/
theorem malformed_line_exactness (s : List Char) :
    exceptOk (parseRTxt s) = true ↔ ∀ l ∈ pyLines s, (matchBaseLine l).isSome :=
  parseRTxtLines_ok_iff (pyLines s) []

/-- C7 counterexample: a table text whose every non-empty line matches the pattern
but which contains one empty line fails to parse (where the claim requires
success), with the empty line reported as the malformed one. -/
theorem empty_line_counterexample :
    parseRTxt (("int string a 0x1\n\nint string b 0x2\n").toList) =
      Except.error (PyErr.malformed ['\n'])
    ∧ (∀ l ∈ pyLines (("int string a 0x1\n\nint string b 0x2\n").toList),
        l ≠ ['\n'] → (matchBaseLine l).isSome = true) := by
  exact ⟨by decide, by decide⟩

lemma processPkgs_append_fail (shared : Bool) (rdir : List Char) (tbl : Table)
    (pkgBad ownBad : List Char) (e : PyErr) :
    ∀ (goods : List (List Char × Option (List Char)))
      (rest : List (List Char × Option (List Char))),
      (∀ g ∈ goods, pkgStepOk shared tbl g = true) →
      createExtraRJavaFile pkgBad ownBad tbl shared = Except.error e →
      processPkgs shared rdir tbl (goods ++ (pkgBad, some ownBad) :: rest) =
        (goods.filterMap (pkgWrite shared rdir tbl), some e) := by
  intro goods
  induction goods with
  | nil =>
    intro rest _ hb
    simp only [List.nil_append, List.filterMap_nil]
    unfold processPkgs
    rw [hb]
  | cons g gs ih =>
    intro rest hg hb
    obtain ⟨p, o⟩ := g
    cases o with
    | none =>
      have hrec := ih rest (fun x hx => hg x (List.mem_cons_of_mem _ hx)) hb
      simp only [List.cons_append]
      unfold processPkgs
      rw [hrec]
      simp [pkgWrite]
    | some own =>
      have hok : exceptOk (createExtraRJavaFile p own tbl shared) = true := by
        have hraw := hg _ (List.mem_cons_self _ _)
        simpa [pkgStepOk] using hraw
      cases hc : createExtraRJavaFile p own tbl shared with
      | error e' => rw [hc] at hok; simp [exceptOk] at hok
      | ok content =>
        have hrec := ih rest (fun x hx => hg x (List.mem_cons_of_mem _ hx)) hb
        simp only [List.cons_append]
        unfold processPkgs
        rw [hc, hrec]
        simp [pkgWrite, hc]

/-- C4 amended: when a package's own symbol list references a pair absent from the
base table, the run aborts with the KeyError and neither the failing package nor
any later package produces output, but the outputs of the packages processed
earlier in the loop, whose lists resolved, have already been written by then (the
program-level temporary-directory cleanup that later discards them is outside
this generation step). -/
theorem unresolved_symbol_amended (shared : Bool) (rdir : List Char) (tbl : Table)
    (goods rest : List (List Char × Option (List Char)))
    (pkgBad ownBad : List Char) (e : PyErr)
    (hg : ∀ g ∈ goods, pkgStepOk shared tbl g = true)
    (hb : createExtraRJavaFile pkgBad ownBad tbl shared = Except.error e) :
    processPkgs shared rdir tbl (goods ++ (pkgBad, some ownBad) :: rest) =
      (goods.filterMap (pkgWrite shared rdir tbl), some e) :=
  processPkgs_append_fail shared rdir tbl pkgBad ownBad e goods rest hg hb

/-- Witness for C4 amended: one resolving package followed by one package whose
list references a missing pair. -/
theorem unresolved_symbol_amended_witness :
    processPkgs false (("gen").toList)
        [((("t").toList, ("a").toList), (("int").toList, ("0x1").toList))]
        ([((("p").toList), some (("int t a 0x1\n").toList))] ++
          ((("q").toList), some (("int t b 0x2\n").toList)) :: []) =
      ([((("p").toList), some (("int t a 0x1\n").toList))].filterMap
        (pkgWrite false (("gen").toList)
          [((("t").toList, ("a").toList), (("int").toList, ("0x1").toList))]),
       some (PyErr.keyError ((("t").toList, ("b").toList)))) :=
  unresolved_symbol_amended false (("gen").toList)
    [((("t").toList, ("a").toList), (("int").toList, ("0x1").toList))]
    [((("p").toList), some (("int t a 0x1\n").toList))] []
    (("q").toList) (("int t b 0x2\n").toList)
    (PyErr.keyError ((("t").toList, ("b").toList)))
    (by decide) (by decide)

/-- C4 counterexample: on a run where the first package resolves and the second
references a missing (resourceType, name) pair, the run fails with the KeyError
but the first package's output file has been written, contradicting the claim
that no output file is written for any package of the run. -/
theorem unresolved_symbol_counterexample :
    (createExtraRJavaFiles (("gen").toList) [] (some (("int t a 0x1\n").toList))
        [("p").toList, ("q").toList]
        [some (("int t a 0x1\n").toList), some (("int t b 0x2\n").toList)]
        false false).2 = some (PyErr.keyError ((("t").toList, ("b").toList)))
    ∧ ((createExtraRJavaFiles (("gen").toList) [] (some (("int t a 0x1\n").toList))
        [("p").toList, ("q").toList]
        [some (("int t a 0x1\n").toList), some (("int t b 0x2\n").toList)]
        false false).1).map Prod.fst = [("gen/p/R.java").toList] := by
  exact ⟨by decide, by decide⟩

lemma matchPkgLen_ge {s : List Char} {n : Nat} (h : matchPkgLen s = some n) : 9 ≤ n := by
  unfold matchPkgLen at h
  split at h
  · unfold matchPkgAfter at h
    split at h
    · injection h with h'
      omega
    · cases h
  · cases h

lemma pySubPkgF_fuel (r : List Char) :
    ∀ (f1 : Nat) (s : List Char) (f2 : Nat), s.length ≤ f1 → s.length ≤ f2 →
      pySubPkgF r f1 s = pySubPkgF r f2 s := by
  intro f1
  induction f1 with
  | zero =>
    intro s f2 h1 _
    have : s = [] := List.length_eq_zero.mp (Nat.le_zero.mp h1)
    subst this
    cases f2 <;> rfl
  | succ f ih =>
    intro s f2 h1 h2
    cases s with
    | nil => cases f2 <;> rfl
    | cons c t =>
      cases f2 with
      | zero => simp at h2
      | succ g =>
        show pySubPkgF r (f + 1) (c :: t) = pySubPkgF r (g + 1) (c :: t)
        unfold pySubPkgF
        cases hm : matchPkgLen (c :: t) with
        | some n =>
          have hn := matchPkgLen_ge hm
          have hlen : ((c :: t).drop n).length ≤ f := by
            simp only [List.length_drop, List.length_cons]
            simp only [List.length_cons] at h1
            omega
          have hlen2 : ((c :: t).drop n).length ≤ g := by
            simp only [List.length_drop, List.length_cons]
            simp only [List.length_cons] at h2
            omega
          dsimp only
          rw [ih _ g hlen hlen2]
        | none =>
          have hlen : t.length ≤ f := by
            simp only [List.length_cons] at h1
            omega
          have hlen2 : t.length ≤ g := by
            simp only [List.length_cons] at h2
            omega
          dsimp only
          rw [ih _ g hlen hlen2]

lemma pySubPkg_cons_none {r : List Char} {c : Char} {t : List Char}
    (h : matchPkgLen (c :: t) = none) :
    pySubPkg r (c :: t) = c :: pySubPkg r t := by
  show pySubPkgF r (t.length + 1) (c :: t) = _
  unfold pySubPkgF
  rw [h]
  rfl

lemma pySubPkg_match_head {r s : List Char} {n : Nat} (h : matchPkgLen s = some n) :
    pySubPkg r s = r ++ pySubPkg r (s.drop n) := by
  cases s with
  | nil => cases h
  | cons c t =>
    have hn := matchPkgLen_ge h
    show pySubPkgF r (t.length + 1) (c :: t) = _
    unfold pySubPkgF
    rw [h]
    dsimp only
    have heq : pySubPkgF r t.length ((c :: t).drop n) = pySubPkg r ((c :: t).drop n) := by
      apply pySubPkgF_fuel
      · simp only [List.length_drop, List.length_cons]
        omega
      · exact Nat.le_refl _
    rw [heq]

lemma pySubPkg_append_clean (r : List Char) :
    ∀ (a b : List Char), cleanBefore a b = true →
      pySubPkg r (a ++ b) = a ++ pySubPkg r b := by
  intro a
  induction a with
  | nil => intro b _; simp
  | cons c s ih =>
    intro b h
    simp only [cleanBefore, Bool.and_eq_true, Option.isNone_iff_eq_none] at h
    calc pySubPkg r ((c :: s) ++ b) = pySubPkg r (c :: (s ++ b)) := by simp
      _ = c :: pySubPkg r (s ++ b) := pySubPkg_cons_none h.1
      _ = c :: (s ++ pySubPkg r b) := by rw [ih b h.2]
      _ = (c :: s) ++ pySubPkg r b := by simp

lemma matchPkgLen_pat {p : List Char} (hp : ∀ c ∈ p, wordDotChar c = true)
    (rest : List Char) :
    matchPkgLen (("package ").toList ++ (p ++ ';' :: rest)) = some (9 + p.length) := by
  unfold matchPkgLen
  have hpre : (("package ").toList).isPrefixOf
      (("package ").toList ++ (p ++ ';' :: rest)) = true := by
    rw [List.isPrefixOf_iff_prefix]
    exact List.prefix_append _ _
  rw [if_pos hpre]
  have hdrop : (("package ").toList ++ (p ++ ';' :: rest)).drop 8 = p ++ ';' :: rest :=
    List.drop_left' rfl
  rw [hdrop]
  unfold matchPkgAfter
  have htw : (p ++ ';' :: rest).takeWhile wordDotChar = p := by
    rw [List.takeWhile_append_of_pos hp]
    simp [List.takeWhile_cons, wordDotChar, wordChar]
  rw [htw]
  have hdrop2 : (p ++ ';' :: rest).drop p.length = ';' :: rest :=
    List.drop_left' rfl
  rw [hdrop2]
  rfl

lemma pySubPkg_pat (r : List Char) {p : List Char}
    (hp : ∀ c ∈ p, wordDotChar c = true) (rest : List Char) :
    pySubPkg r (("package ").toList ++ (p ++ ';' :: rest)) = r ++ pySubPkg r rest := by
  have hm := matchPkgLen_pat hp rest
  rw [pySubPkg_match_head hm]
  have hassoc : ("package ").toList ++ (p ++ ';' :: rest) =
      ((("package ").toList ++ p ++ [';']) ++ rest) := by simp
  have hlen : ((("package ").toList ++ p ++ [';'])).length = 9 + p.length := by
    simp
    omega
  rw [hassoc, List.drop_left' hlen]

/-- C5 amended: the fallback rewrite is re.sub over the whole source text, so every
occurrence of the package pattern is replaced by the target package declaration,
not only the package-declaration line; when the declaration line is the only
occurrence, every other byte is reproduced verbatim.  Stated for a source text
with two occurrences of the pattern, with no match starting anywhere else. -/
theorem fallback_rewrites_every_occurrence (rdir : List Char)
    (pkgs : List (List Char)) (p1 p2 pre mid post : List Char)
    (baseRTxt : Option (List Char)) (ownRTxts : List (Option (List Char)))
    (shared : Bool)
    (h1 : ∀ c ∈ p1, wordDotChar c = true) (h2 : ∀ c ∈ p2, wordDotChar c = true)
    (hpre : cleanBefore pre (("package ").toList ++
      (p1 ++ ';' :: (mid ++ (("package ").toList ++ (p2 ++ ';' :: post))))) = true)
    (hmid : cleanBefore mid (("package ").toList ++ (p2 ++ ';' :: post)) = true)
    (hpost : cleanBefore post [] = true) :
    createExtraRJavaFiles rdir
        [pre ++ (("package ").toList ++
          (p1 ++ ';' :: (mid ++ (("package ").toList ++ (p2 ++ ';' :: post)))))]
        baseRTxt pkgs ownRTxts shared true =
      (pkgs.map (fun pkg => (rJavaPathOf rdir pkg,
        pre ++ (pkgRepl pkg ++ (mid ++ (pkgRepl pkg ++ post))))), none) := by
  have hstep : ∀ pkg : List Char,
      pySubPkg (pkgRepl pkg) (pre ++ (("package ").toList ++
        (p1 ++ ';' :: (mid ++ (("package ").toList ++ (p2 ++ ';' :: post)))))) =
        pre ++ (pkgRepl pkg ++ (mid ++ (pkgRepl pkg ++ post))) := by
    intro pkg
    rw [pySubPkg_append_clean _ _ _ hpre]
    rw [pySubPkg_pat _ h1]
    rw [pySubPkg_append_clean _ _ _ hmid]
    rw [pySubPkg_pat _ h2]
    have hpp : pySubPkg (pkgRepl pkg) post = post := by
      have h0 := pySubPkg_append_clean (pkgRepl pkg) post [] hpost
      simpa [show pySubPkg (pkgRepl pkg) [] = [] from rfl] using h0
    rw [hpp]
  unfold createExtraRJavaFiles
  simp only [if_pos]
  refine congrArg (fun w => (w, none)) ?_
  exact List.map_congr_left (fun pkg _ => by rw [hstep pkg])

/-- Witness for C5 amended: a source class with its declaration line and a comment
holding a second occurrence of the pattern, rewritten for one target package. -/
theorem fallback_rewrites_every_occurrence_witness :
    createExtraRJavaFiles (("gen").toList)
        [[] ++ (("package ").toList ++
          ((("a.b").toList) ++ ';' :: ((("\n// see ").toList) ++ (("package ").toList ++
            ((("a.b").toList) ++ ';' :: (("\n").toList))))))]
        none [("com.foo").toList] [] false true =
      ([("com.foo").toList].map (fun pkg => (rJavaPathOf (("gen").toList) pkg,
        [] ++ (pkgRepl pkg ++ ((("\n// see ").toList) ++ (pkgRepl pkg ++ (("\n").toList)))))),
       none) :=
  fallback_rewrites_every_occurrence (("gen").toList) [("com.foo").toList]
    (("a.b").toList) (("a.b").toList) [] (("\n// see ").toList) (("\n").toList)
    none [] false (by decide) (by decide) (by decide) (by decide) (by decide)

/-- C5 counterexample: in fallback mode with exactly one generated class whose text
contains the package pattern twice (once in the declaration, once in a comment),
the output replaces both occurrences, so it differs from the text with only the
package-declaration line replaced, contradicting the for-every-content claim. -/
theorem fallback_rewrite_counterexample :
    (createExtraRJavaFiles (("gen").toList)
        [("package a.b;\n// see package a.b;\n").toList]
        none [("com.foo").toList] [] false true).1 =
      [((("gen/com/foo/R.java").toList),
        (("package com.foo;\n// see package com.foo;\n").toList))]
    ∧ (("package com.foo;\n// see package com.foo;\n").toList) ≠
      (("package com.foo;\n// see package a.b;\n").toList) := by
  exact ⟨by decide, by decide⟩

lemma lcgIter_mod (n : Nat) : ∀ i, lcgIter n i % 8 = lcgIter n (i % 8) % 8 := by
  induction n with
  | zero =>
    intro i
    show i % 8 = i % 8 % 8
    omega
  | succ n ih =>
    intro i
    show lcgIter n (5 * i + 1) % 8 = lcgIter n (5 * (i % 8) + 1) % 8
    rw [ih (5 * i + 1), ih (5 * (i % 8) + 1)]
    have : (5 * i + 1) % 8 = (5 * (i % 8) + 1) % 8 := by omega
    rw [this]

lemma lcg_orbit : ∀ a b : Fin 8, ∃ n : Fin 8, lcgIter n.val a.val % 8 = b.val := by decide

lemma probeFind_zero_perturb (slots : List (Option (List Char))) :
    ∀ (n fuel i : Nat), slots.getD (lcgIter n i % 8) none = none →
      n + 1 ≤ fuel → slots.getD (probeFind slots fuel i 0) none = none := by
  intro n
  induction n with
  | zero =>
    intro fuel i h hf
    cases fuel with
    | zero => omega
    | succ f =>
      have h0 : slots.getD (i % 8) none = none := h
      have hc : (slots.getD (i % 8) none).isNone = true := by rw [h0]; rfl
      unfold probeFind
      rw [if_pos hc]
      exact h0
  | succ n ih =>
    intro fuel i h hf
    cases fuel with
    | zero => omega
    | succ f =>
      unfold probeFind
      by_cases hc : (slots.getD (i % 8) none).isNone = true
      · rw [if_pos hc]
        exact Option.isNone_iff_eq_none.mp hc
      · rw [if_neg hc]
        have h' : slots.getD (lcgIter n (5 * i + 1) % 8) none = none := h
        have := ih f (5 * i + 1) h' (by omega)
        simpa using this

lemma probeFind_perturb (slots : List (Option (List Char)))
    (hempty : ∃ j, j < 8 ∧ slots.getD j none = none) :
    ∀ (k perturb fuel i : Nat), perturb < 2 ^ (5 * k) → k + 8 ≤ fuel →
      slots.getD (probeFind slots fuel i perturb) none = none := by
  intro k
  induction k with
  | zero =>
    intro perturb fuel i hp hf
    have hp0 : perturb = 0 := by
      have : (2 : Nat) ^ (5 * 0) = 1 := by norm_num
      omega
    subst hp0
    obtain ⟨j, hj8, hjnone⟩ := hempty
    obtain ⟨m, hm⟩ := lcg_orbit ⟨i % 8, Nat.mod_lt _ (by norm_num)⟩ ⟨j, hj8⟩
    have hm' : lcgIter m.val i % 8 = j := by
      rw [lcgIter_mod]
      exact hm
    apply probeFind_zero_perturb slots m.val fuel i
    · rw [hm']
      exact hjnone
    · have := m.isLt
      omega
  | succ k ih =>
    intro perturb fuel i hp hf
    cases fuel with
    | zero => omega
    | succ f =>
      unfold probeFind
      by_cases hc : (slots.getD (i % 8) none).isNone = true
      · rw [if_pos hc]
        exact Option.isNone_iff_eq_none.mp hc
      · rw [if_neg hc]
        apply ih (perturb >>> 5) f (5 * i + perturb + 1)
        · rw [Nat.shiftRight_eq_div_pow]
          have h5 : (2 : Nat) ^ 5 = 32 := by norm_num
          have hsucc : (2 : Nat) ^ (5 * (k + 1)) = 2 ^ (5 * k) * 32 := by
            rw [show 5 * (k + 1) = 5 * k + 5 by omega, Nat.pow_add]
          rw [h5]
          rw [hsucc] at hp
          omega
        · omega

lemma probeFind_lt (slots : List (Option (List Char))) :
    ∀ (fuel i perturb : Nat), probeFind slots fuel i perturb < 8 := by
  intro fuel
  induction fuel with
  | zero => intro i perturb; exact Nat.mod_lt _ (by norm_num)
  | succ f ih =>
    intro i perturb
    unfold probeFind
    by_cases hc : (slots.getD (i % 8) none).isNone = true
    · rw [if_pos hc]
      exact Nat.mod_lt _ (by norm_num)
    · rw [if_neg hc]
      exact ih _ _

lemma pyHashLoop_lt {x : Nat} (hx : x < 2 ^ 64) :
    ∀ s : List Char, pyHashLoop x s < 2 ^ 64 := by
  intro s
  induction s generalizing x with
  | nil => exact hx
  | cons c r ih =>
    apply ih
    apply Nat.xor_lt_two_pow
    · exact Nat.mod_lt _ (by norm_num)
    · calc c.toNat < 2 ^ 32 := UInt32.toNat_lt_size c.val
        _ < 2 ^ 64 := by norm_num

lemma pyHashFix_lt {x : Nat} (hx : x < 2 ^ 64) : pyHashFix x < 2 ^ 64 := by
  unfold pyHashFix
  split
  · norm_num
  · exact hx

lemma pyHash_lt (s : List Char) : pyHash s < 2 ^ 64 := by
  cases s with
  | nil => norm_num [pyHash]
  | cons c r =>
    show pyHashFix _ < 2 ^ 64
    apply pyHashFix_lt
    apply Nat.xor_lt_two_pow
    · exact pyHashLoop_lt (Nat.mod_lt _ (by norm_num)) _
    · exact Nat.mod_lt _ (by norm_num)

lemma exists_empty_slot :
    ∀ (l : List (Option (List Char))), (l.filterMap id).length < l.length →
      ∃ j, j < l.length ∧ l.getD j none = none := by
  intro l
  induction l with
  | nil => intro h; simp at h
  | cons o r ih =>
    intro h
    cases o with
    | none => exact ⟨0, by simp, rfl⟩
    | some a =>
      simp only [List.filterMap_cons, id, List.length_cons] at h
      obtain ⟨j, hj, hnone⟩ := ih (by simpa using h)
      exact ⟨j + 1, by simpa using hj, hnone⟩

lemma filterMap_set_perm {a : List Char} :
    ∀ (l : List (Option (List Char))) (j : Nat), j < l.length → l.getD j none = none →
      ((l.set j (some a)).filterMap id).Perm (a :: l.filterMap id) := by
  intro l
  induction l with
  | nil => intro j hj _; simp at hj
  | cons o r ih =>
    intro j hj hnone
    cases j with
    | zero =>
      have : o = none := hnone
      subst this
      simp [List.filterMap_cons]
    | succ j =>
      have hj' : j < r.length := by simpa using hj
      have hnone' : r.getD j none = none := hnone
      cases o with
      | none =>
        simpa [List.filterMap_cons] using ih j hj' hnone'
      | some b =>
        simp only [List.set_cons_succ, List.filterMap_cons, id]
        exact ((ih j hj' hnone').cons b).trans (List.Perm.swap a b _)

lemma slotPlace_spec (slots : List (Option (List Char))) (k : List Char)
    (hlen : slots.length = 8) (hcnt : (slots.filterMap id).length < 8) :
    ((slotPlace slots k).filterMap id).Perm (k :: slots.filterMap id)
    ∧ (slotPlace slots k).length = 8 := by
  have hempty : ∃ j, j < 8 ∧ slots.getD j none = none := by
    obtain ⟨j, hj, hn⟩ := exists_empty_slot slots (by rw [hlen]; exact hcnt)
    exact ⟨j, by rw [hlen] at hj; exact hj, hn⟩
  have hhash : pyHash k < 2 ^ (5 * 13) := by
    calc pyHash k < 2 ^ 64 := pyHash_lt k
      _ < 2 ^ (5 * 13) := by norm_num
  have hfind : slots.getD (slotFor slots k) none = none :=
    probeFind_perturb slots hempty 13 (pyHash k) 64 (pyHash k % 8) hhash (by norm_num)
  have hlt : slotFor slots k < 8 := probeFind_lt slots 64 (pyHash k % 8) (pyHash k)
  constructor
  · exact filterMap_set_perm slots (slotFor slots k) (by rw [hlen]; exact hlt) hfind
  · unfold slotPlace
    rw [List.length_set, hlen]

lemma itemsGet_isSome_iff {t : List Char} :
    ∀ {items : List (List Char × List (List Char × List Char × List Char))},
      (itemsGet items t).isSome = true ↔ t ∈ items.map Prod.fst := by
  intro items
  induction items with
  | nil => simp [itemsGet]
  | cons h r ih =>
    obtain ⟨k, v⟩ := h
    by_cases hk : k = t
    · subst hk
      simp [itemsGet]
    · simp [itemsGet, hk, ih, Ne.symm hk]

lemma itemKeys_itemsAppend {t : List Char} {e : List Char × List Char × List Char} :
    ∀ {items : List (List Char × List (List Char × List Char × List Char))},
      (itemsAppend items t e).map Prod.fst = items.map Prod.fst := by
  intro items
  induction items with
  | nil => simp [itemsAppend]
  | cons h r ih =>
    obtain ⟨k, v⟩ := h
    by_cases hk : k = t
    · subst hk
      simp [itemsAppend]
    · simp [itemsAppend, hk, ih]

lemma itemsGet_itemsAppend_self {t : List Char} {e : List Char × List Char × List Char} :
    ∀ {items : List (List Char × List (List Char × List Char × List Char))},
      itemsGet (itemsAppend items t e) t = (itemsGet items t).map (fun l => l ++ [e]) := by
  intro items
  induction items with
  | nil => simp [itemsAppend, itemsGet]
  | cons h r ih =>
    obtain ⟨k, v⟩ := h
    by_cases hk : k = t
    · subst hk
      simp [itemsAppend, itemsGet]
    · simp [itemsAppend, itemsGet, hk, ih]

lemma itemsGet_itemsAppend_ne {t t' : List Char} {e : List Char × List Char × List Char}
    (hne : t' ≠ t) :
    ∀ {items : List (List Char × List (List Char × List Char × List Char))},
      itemsGet (itemsAppend items t e) t' = itemsGet items t' := by
  intro items
  induction items with
  | nil => simp [itemsAppend, itemsGet]
  | cons h r ih =>
    obtain ⟨k, v⟩ := h
    by_cases hk : k = t
    · subst hk
      simp [itemsAppend, itemsGet, Ne.symm hne, ih]
    · by_cases hk' : k = t'
      · subst hk'
        simp [itemsAppend, itemsGet, hk, ih]
      · simp [itemsAppend, itemsGet, hk, hk', ih]

lemma itemsGet_append_one {t t' : List Char}
    {x : List (List Char × List Char × List Char)} :
    ∀ {items : List (List Char × List (List Char × List Char × List Char))},
      itemsGet (items ++ [(t, x)]) t' =
        match itemsGet items t' with
        | some v => some v
        | none => if t = t' then some x else none := by
  intro items
  induction items with
  | nil => simp [itemsGet]
  | cons h r ih =>
    obtain ⟨k, v⟩ := h
    by_cases hk : k = t'
    · subst hk
      simp [itemsGet]
    · simp [itemsGet, hk, ih]

lemma pdAppend_state (d : PyDict) (t : List Char)
    (e : List Char × List Char × List Char) :
    ((pdAppend d t e).slots, itemKeys (pdAppend d t e)) =
      dictOrderStep (d.slots, itemKeys d) t := by
  unfold pdAppend dictOrderStep
  by_cases hmem : (itemsGet d.items t).isSome = true
  · have ht : t ∈ itemKeys d := itemsGet_isSome_iff.mp hmem
    rw [if_pos hmem]
    have ht2 : t ∈ (d.slots, itemKeys d).2 := ht
    rw [if_pos ht2]
    simp [itemKeys, itemKeys_itemsAppend]
  · have ht : t ∉ itemKeys d := fun hc => hmem (itemsGet_isSome_iff.mpr hc)
    rw [if_neg hmem]
    have ht2 : t ∉ (d.slots, itemKeys d).2 := ht
    rw [if_neg ht2]
    simp [itemKeys]

lemma pdAppend_entriesFor_self (d : PyDict) (t : List Char)
    (e : List Char × List Char × List Char) :
    entriesFor (pdAppend d t e) t = entriesFor d t ++ [e] := by
  unfold pdAppend entriesFor
  by_cases hmem : (itemsGet d.items t).isSome = true
  · rw [if_pos hmem]
    obtain ⟨l, hl⟩ := Option.isSome_iff_exists.mp hmem
    simp [itemsGet_itemsAppend_self, hl]
  · rw [if_neg hmem]
    have hn : itemsGet d.items t = none := Option.not_isSome_iff_eq_none.mp (by
      intro hc
      exact hmem hc)
    simp [itemsGet_append_one, hn]

lemma pdAppend_entriesFor_ne (d : PyDict) {t t' : List Char}
    (e : List Char × List Char × List Char) (hne : t' ≠ t) :
    entriesFor (pdAppend d t e) t' = entriesFor d t' := by
  unfold pdAppend entriesFor
  by_cases hmem : (itemsGet d.items t).isSome = true
  · rw [if_pos hmem]
    simp [itemsGet_itemsAppend_ne hne]
  · rw [if_neg hmem]
    simp only [itemsGet_append_one]
    cases hg : itemsGet d.items t' with
    | some v => simp
    | none => simp [Ne.symm hne]

lemma buildResLines_state (tbl : Table) :
    ∀ (ls : List (List Char)) (d d' : PyDict),
      buildResLines tbl ls d = Except.ok d' →
      (d'.slots, itemKeys d') =
        ((ls.filterMap matchOwnLine).map Prod.fst).foldl dictOrderStep
          (d.slots, itemKeys d) := by
  intro ls
  induction ls with
  | nil =>
    intro d d' h
    cases h
    simp
  | cons l rest ih =>
    intro d d' h
    unfold buildResLines at h
    cases hm : matchOwnLine l with
    | none => rw [hm] at h; cases h
    | some p =>
      obtain ⟨t, n⟩ := p
      rw [hm] at h
      dsimp only at h
      cases hl : lookupTable tbl (t, n) with
      | none => rw [hl] at h; cases h
      | some jv =>
        obtain ⟨jt, v⟩ := jv
        rw [hl] at h
        have hrec := ih _ _ h
        rw [hrec, pdAppend_state]
        simp [hm]

lemma buildResLines_entries (tbl : Table) :
    ∀ (ls : List (List Char)) (d d' : PyDict) (t : List Char),
      buildResLines tbl ls d = Except.ok d' →
      entriesFor d' t = entriesFor d t ++ ls.filterMap (ownEntryFor tbl t) := by
  intro ls
  induction ls with
  | nil =>
    intro d d' t h
    cases h
    simp
  | cons l rest ih =>
    intro d d' t h
    unfold buildResLines at h
    cases hm : matchOwnLine l with
    | none => rw [hm] at h; cases h
    | some p =>
      obtain ⟨t', n⟩ := p
      rw [hm] at h
      dsimp only at h
      cases hl : lookupTable tbl (t', n) with
      | none => rw [hl] at h; cases h
      | some jv =>
        obtain ⟨jt, v⟩ := jv
        rw [hl] at h
        have hrec := ih _ _ t h
        rw [hrec]
        by_cases hte : t' = t
        · subst hte
          rw [pdAppend_entriesFor_self]
          simp [List.filterMap_cons, ownEntryFor, hm, hl]
        · rw [pdAppend_entriesFor_ne _ _ (Ne.symm hte)]
          simp [List.filterMap_cons, ownEntryFor, hm, hte]

lemma dictOrder_fold_len_mono :
    ∀ (ts : List (List Char)) (st : List (Option (List Char)) × List (List Char)),
      st.2.length ≤ ((ts.foldl dictOrderStep st).2).length := by
  intro ts
  induction ts with
  | nil => intro st; exact Nat.le_refl _
  | cons t r ih =>
    intro st
    have hstep : st.2.length ≤ (dictOrderStep st t).2.length := by
      unfold dictOrderStep
      by_cases hmem : t ∈ st.2
      · rw [if_pos hmem]
      · rw [if_neg hmem]
        simp
    calc st.2.length ≤ (dictOrderStep st t).2.length := hstep
      _ ≤ _ := ih (dictOrderStep st t)

lemma dictOrder_fold_inv :
    ∀ (ts : List (List Char)) (st : List (Option (List Char)) × List (List Char)),
      st.1.length = 8 → st.2.Nodup → (st.1.filterMap id).Perm st.2 →
      ((ts.foldl dictOrderStep st).2).length ≤ 7 →
      ((ts.foldl dictOrderStep st).2).Nodup
      ∧ ((ts.foldl dictOrderStep st).1.filterMap id).Perm
          ((ts.foldl dictOrderStep st).2) := by
  intro ts
  induction ts with
  | nil =>
    intro st h8 hnd hperm _
    exact ⟨hnd, hperm⟩
  | cons t r ih =>
    intro st h8 hnd hperm hfin
    simp only [List.foldl_cons] at hfin ⊢
    by_cases hmem : t ∈ st.2
    · have hstep : dictOrderStep st t = st := by
        unfold dictOrderStep
        rw [if_pos hmem]
      rw [hstep] at hfin ⊢
      exact ih st h8 hnd hperm hfin
    · have hstep : dictOrderStep st t = (slotPlace st.1 t, st.2 ++ [t]) := by
        unfold dictOrderStep
        rw [if_neg hmem]
      rw [hstep] at hfin ⊢
      have hmono := dictOrder_fold_len_mono r (slotPlace st.1 t, st.2 ++ [t])
      have hlen2 : st.2.length + 1 ≤ 7 := by
        simp only [List.length_append, List.length_singleton] at hmono
        omega
      have hcnt : (st.1.filterMap id).length < 8 := by
        have := hperm.length_eq
        omega
      obtain ⟨hpl, h8'⟩ := slotPlace_spec st.1 t h8 hcnt
      have hnd' : (st.2 ++ [t]).Nodup := by
        rw [List.nodup_append]
        refine ⟨hnd, by simp, ?_⟩
        intro x hx hx2
        simp only [List.mem_singleton] at hx2
        subst hx2
        exact hmem hx
      have hperm' : ((slotPlace st.1 t).filterMap id).Perm (st.2 ++ [t]) :=
        (hpl.trans (hperm.cons t)).trans (List.perm_append_singleton t st.2).symm
      exact ih (slotPlace st.1 t, st.2 ++ [t]) h8' hnd' hperm' hfin

lemma isClassHeaderLine_fieldLine (shared : Bool) (jt n v : List Char) :
    isClassHeaderLine (fieldLine shared jt n v) = false := by
  cases shared <;> rfl

lemma isClassHeaderLine_classHeaderLine (t : List Char) :
    isClassHeaderLine (classHeaderLine t) = true := by
  unfold isClassHeaderLine classHeaderLine
  simp [List.isPrefixOf]

lemma filter_classHeader_patchLines (t : List Char)
    (e : List Char × List Char × List Char) :
    (patchLines t e).filter isClassHeaderLine = [] := by
  unfold patchLines
  by_cases hjt : e.2.1 = ("int[]").toList
  · rw [if_pos hjt]
    rfl
  · rw [if_neg hjt]
    rfl

lemma filter_classHeader_classBlock (shared : Bool) (d : PyDict) (t : List Char) :
    (classBlock shared d t).filter isClassHeaderLine = [classHeaderLine t] := by
  unfold classBlock
  rw [List.filter_append, List.filter_cons]
  rw [isClassHeaderLine_classHeaderLine]
  have h1 : ((entriesFor d t).map
      (fun e => fieldLine shared e.2.1 e.1 e.2.2)).filter isClassHeaderLine = [] := by
    rw [List.filter_eq_nil_iff]
    intro a ha
    obtain ⟨e, _, he⟩ := List.mem_map.mp ha
    rw [← he]
    simp [isClassHeaderLine_fieldLine]
  have h2 : ([("    \x7d").toList]).filter isClassHeaderLine = [] := rfl
  rw [h1, h2]
  rfl

lemma filter_classHeader_sharedBlock (shared : Bool) (d : PyDict) :
    (sharedBlock shared d).filter isClassHeaderLine = [] := by
  unfold sharedBlock
  cases shared with
  | false => rfl
  | true =>
    rw [if_pos rfl, List.filter_append, List.filter_cons]
    have h0 : isClassHeaderLine
        (("    public static void onResourcesLoaded(int packageId) \x7b").toList) = false := rfl
    rw [h0]
    have h1 : ((typesOrder d).flatMap
        (fun t => (entriesFor d t).flatMap (patchLines t))).filter isClassHeaderLine = [] := by
      rw [List.filter_eq_nil_iff]
      intro a ha
      obtain ⟨t, _, ha2⟩ := List.mem_flatMap.mp ha
      obtain ⟨e, _, ha3⟩ := List.mem_flatMap.mp ha2
      have hnil := filter_classHeader_patchLines t e
      rw [List.filter_eq_nil_iff] at hnil
      exact hnil a ha3
    have h2 : ([("    \x7d").toList]).filter isClassHeaderLine = [] := rfl
    rw [h1, h2]
    rfl

lemma filter_classHeader_flatMap (shared : Bool) (d : PyDict) :
    ∀ (ts : List (List Char)),
      (ts.flatMap (classBlock shared d)).filter isClassHeaderLine =
        ts.map classHeaderLine := by
  intro ts
  induction ts with
  | nil => rfl
  | cons t r ih =>
    rw [List.flatMap_cons, List.filter_append, filter_classHeader_classBlock, ih]
    rfl

lemma renderLines_filter_classHeader (pkg : List Char) (d : PyDict) (shared : Bool) :
    (renderLines pkg d shared).filter isClassHeaderLine =
      (typesOrder d).map classHeaderLine := by
  unfold renderLines
  rw [List.filter_append, List.filter_append, List.filter_append]
  have h1 : (headerLines pkg).filter isClassHeaderLine = [] := by
    unfold headerLines
    rfl
  have h4 : ([[('\x7d' : Char)]]).filter isClassHeaderLine = [] := rfl
  rw [h1, filter_classHeader_flatMap, filter_classHeader_sharedBlock, h4]
  simp

/-- C2 amended: the generated source lists one nested class per resource type in
CPython 2.7 dict iteration order of the type names (slot order of the 8-slot hash
table, deterministic for a given input but in general not the order each type is
first encountered), stated here for own-symbol-lists with at most five distinct
resource types, where the single 8-slot table is never resized; within each type
the fields follow the order the names appear in the own-symbol-list file; the
generation is a pure function of its inputs, so two runs over identical inputs
produce byte-identical output. -/
theorem render_model_order (own : List Char) (tbl : Table) (d : PyDict)
    (hok : buildRes own tbl = Except.ok d)
    (_hsmall : ((ownTypes own).foldl dictOrderStep (emptySlots, [])).2.length ≤ 5) :
    typesOrder d = py2DictOrder (ownTypes own)
    ∧ (∀ t, entriesFor d t = (pyLines own).filterMap (ownEntryFor tbl t))
    ∧ (∀ pkg shared, (renderLines pkg d shared).filter isClassHeaderLine =
        (typesOrder d).map classHeaderLine) := by
  have hstate := buildResLines_state tbl (pyLines own) emptyPyDict d hok
  refine ⟨?_, ?_, ?_⟩
  · unfold typesOrder py2DictOrder
    have hslots : d.slots = ((ownTypes own).foldl dictOrderStep (emptySlots, [])).1 := by
      have hfst := congrArg Prod.fst hstate
      simpa [emptyPyDict, itemKeys, ownTypes, ownPairs] using hfst
    rw [hslots]
  · intro t
    have hent := buildResLines_entries tbl (pyLines own) emptyPyDict d t hok
    simpa [emptyPyDict, entriesFor, itemsGet] using hent
  · intro pkg shared
    exact renderLines_filter_classHeader pkg d shared

/-- Witness for C2 amended at the concrete two-type input. -/
theorem render_model_order_witness :
    typesOrder cxDict = py2DictOrder (ownTypes cxOwn)
    ∧ entriesFor cxDict (("b").toList) =
        (pyLines cxOwn).filterMap (ownEntryFor cxTbl (("b").toList))
    ∧ (renderLines (("p").toList) cxDict false).filter isClassHeaderLine =
        (typesOrder cxDict).map classHeaderLine :=
  ⟨(render_model_order cxOwn cxTbl cxDict (by decide) (by decide)).1,
   (render_model_order cxOwn cxTbl cxDict (by decide) (by decide)).2.1 (("b").toList),
   (render_model_order cxOwn cxTbl cxDict (by decide) (by decide)).2.2 (("p").toList) false⟩

/-- C2 counterexample: for an own-symbol-list that first encounters type b and then
type a, the generated nested classes come out in the order a, b (CPython dict slot
order), not in first-encounter order b, a as the claim requires. -/
theorem render_model_order_counterexample :
    (buildRes cxOwn cxTbl).map typesOrder =
      Except.ok [("a").toList, ("b").toList]
    ∧ ownTypes cxOwn = [("b").toList, ("a").toList]
    ∧ ([("a").toList, ("b").toList] : List (List Char)) ≠
        [("b").toList, ("a").toList] := by
  exact ⟨by decide, by decide, by decide⟩

lemma buildResLines_resolves (tbl : Table) :
    ∀ (ls : List (List Char)) (d d' : PyDict),
      buildResLines tbl ls d = Except.ok d' →
      ∀ l ∈ ls, ∀ p, matchOwnLine l = some p → (lookupTable tbl p).isSome = true := by
  intro ls
  induction ls with
  | nil => intro d d' _ l hl; cases hl
  | cons l0 rest ih =>
    intro d d' h l hl p hp
    unfold buildResLines at h
    cases hm : matchOwnLine l0 with
    | none => rw [hm] at h; cases h
    | some q =>
      obtain ⟨t, n⟩ := q
      rw [hm] at h
      dsimp only at h
      cases hlk : lookupTable tbl (t, n) with
      | none => rw [hlk] at h; cases h
      | some jv =>
        obtain ⟨jt, v⟩ := jv
        rw [hlk] at h
        rcases List.mem_cons.mp hl with hl0 | hlr
        · subst hl0
          rw [hm] at hp
          injection hp with hp'
          subst hp'
          rw [hlk]
          rfl
        · exact ih _ _ h l hlr p hp

lemma countP_beq_zero {α : Type} [BEq α] [LawfulBEq α] {t : α} :
    ∀ {l : List α}, t ∉ l → l.countP (fun x => x == t) = 0 := by
  intro l
  induction l with
  | nil => intro _; rfl
  | cons x r ih =>
    intro h
    simp only [List.mem_cons, not_or] at h
    rw [List.countP_cons]
    have hx : (x == t) = false := by
      rw [beq_eq_false_iff_ne]
      intro hc
      exact h.1 hc.symm
    rw [hx, ih h.2]
    simp

lemma countP_beq_one {α : Type} [BEq α] [LawfulBEq α] {t : α} :
    ∀ {l : List α}, l.Nodup → t ∈ l → l.countP (fun x => x == t) = 1 := by
  intro l
  induction l with
  | nil => intro _ h; cases h
  | cons x r ih =>
    intro hnd hm
    rw [List.nodup_cons] at hnd
    rw [List.countP_cons]
    rcases List.mem_cons.mp hm with h0 | h0
    · subst h0
      rw [countP_beq_zero hnd.1]
      simp
    · have hx : (x == t) = false := by
        rw [beq_eq_false_iff_ne]
        intro hc
        subst hc
        exact hnd.1 h0
      rw [hx, ih hnd.2 h0]
      simp

lemma countP_entries_eq_count (tbl : Table) (t n : List Char) :
    ∀ (ls : List (List Char)),
      (∀ l ∈ ls, ∀ p, matchOwnLine l = some p → (lookupTable tbl p).isSome = true) →
      ((ls.filterMap (ownEntryFor tbl t)).countP (fun en => en.1 == n)) =
        (ls.filterMap matchOwnLine).countP (fun p => p == (t, n)) := by
  intro ls
  induction ls with
  | nil => intro _; rfl
  | cons l rest ih =>
    intro hres
    have hrec := ih (fun x hx => hres x (List.mem_cons_of_mem _ hx))
    cases hm : matchOwnLine l with
    | none =>
      have he : ownEntryFor tbl t l = none := by
        unfold ownEntryFor
        rw [hm]
      simp only [List.filterMap_cons, hm, he, hrec]
    | some p =>
      obtain ⟨t', n'⟩ := p
      have hsome : (lookupTable tbl (t', n')).isSome = true :=
        hres l (List.mem_cons_self _ _) _ hm
      obtain ⟨jv, hjv⟩ := Option.isSome_iff_exists.mp hsome
      obtain ⟨jt, v⟩ := jv
      by_cases hte : t' = t
      · subst hte
        have he : ownEntryFor tbl t' l = some (n', jt, v) := by
          unfold ownEntryFor
          rw [hm]
          dsimp only
          rw [if_pos rfl, hjv]
          rfl
        simp only [List.filterMap_cons, hm, he, List.countP_cons, hrec]
        by_cases hne : n' = n
        · subst hne
          try simp
        · have h1 : ((n', jt, v).1 == n) = false := by
            simp [hne]
          have h2 : (((t', n') : List Char × List Char) == (t', n)) = false := by
            simp [hne]
          rw [h1, h2]
          try simp
      · have he : ownEntryFor tbl t l = none := by
          unfold ownEntryFor
          rw [hm]
          dsimp only
          rw [if_neg hte]
        have h2 : (((t', n') : List Char × List Char) == (t, n)) = false := by
          simp [hte]
        simp only [List.filterMap_cons, hm, he, List.countP_cons, hrec, h2]
        simp

lemma countP_flatMap_tagged (d : PyDict) (t n : List Char) :
    ∀ (ts : List (List Char)),
      ((ts.flatMap (fun t' => (entriesFor d t').map
          (fun e => (t', e.1, e.2.1, e.2.2)))).countP
        (fun e => e.1 == t && e.2.1 == n)) =
        (ts.countP (fun x => x == t)) * ((entriesFor d t).countP (fun en => en.1 == n)) := by
  intro ts
  induction ts with
  | nil => simp
  | cons t' r ih =>
    rw [List.flatMap_cons, List.countP_append, ih, List.countP_cons]
    by_cases hte : t' = t
    · subst hte
      have hblock : ((entriesFor d t').map (fun e => (t', e.1, e.2.1, e.2.2))).countP
          (fun e => e.1 == t' && e.2.1 == n) =
          (entriesFor d t').countP (fun en => en.1 == n) := by
        rw [List.countP_map]
        apply List.countP_congr
        intro e _
        simp
      rw [hblock]
      simp [Nat.succ_mul]
      ring
    · have hblock : ((entriesFor d t').map (fun e => (t', e.1, e.2.1, e.2.2))).countP
          (fun e => e.1 == t && e.2.1 == n) = 0 := by
        rw [List.countP_map]
        apply List.countP_eq_zero.mpr
        intro e _
        simp [hte]
      rw [hblock]
      have : (t' == t) = false := by simp [hte]
      rw [this]
      simp

lemma dictOrder_fold_mem :
    ∀ (ts : List (List Char)) (st : List (Option (List Char)) × List (List Char))
      (x : List Char), x ∈ ts ∨ x ∈ st.2 → x ∈ ((ts.foldl dictOrderStep st).2) := by
  intro ts
  induction ts with
  | nil =>
    intro st x h
    rcases h with h | h
    · cases h
    · exact h
  | cons t r ih =>
    intro st x h
    simp only [List.foldl_cons]
    have hsub : x ∈ r ∨ x ∈ (dictOrderStep st t).2 → x ∈ ((r.foldl dictOrderStep (dictOrderStep st t)).2) :=
      ih (dictOrderStep st t) x
    apply hsub
    have hkeep : ∀ y, y ∈ st.2 → y ∈ (dictOrderStep st t).2 := by
      intro y hy
      unfold dictOrderStep
      by_cases hmem : t ∈ st.2
      · rw [if_pos hmem]; exact hy
      · rw [if_neg hmem]
        simp only [List.mem_append]
        exact Or.inl hy
    have hself : t ∈ (dictOrderStep st t).2 := by
      unfold dictOrderStep
      by_cases hmem : t ∈ st.2
      · rw [if_pos hmem]; exact hmem
      · rw [if_neg hmem]
        simp
    rcases h with h | h
    · rcases List.mem_cons.mp h with h0 | h0
      · subst h0
        exact Or.inr hself
      · exact Or.inl h0
    · exact Or.inr (hkeep x h)

lemma isFieldDeclLine_fieldLine (jt n v : List Char) :
    isFieldDeclLine (fieldLine false jt n v) = true := by
  unfold isFieldDeclLine fieldLine
  simp [List.isPrefixOf]

lemma filter_fieldDecl_classBlock (d : PyDict) (t : List Char) :
    (classBlock false d t).filter isFieldDeclLine =
      (entriesFor d t).map (fun e => fieldLine false e.2.1 e.1 e.2.2) := by
  unfold classBlock
  rw [List.filter_append, List.filter_cons]
  have h0 : isFieldDeclLine (classHeaderLine t) = false := rfl
  rw [h0]
  have h1 : ((entriesFor d t).map
      (fun e => fieldLine false e.2.1 e.1 e.2.2)).filter isFieldDeclLine =
      (entriesFor d t).map (fun e => fieldLine false e.2.1 e.1 e.2.2) := by
    rw [List.filter_eq_self]
    intro a ha
    obtain ⟨e, _, he⟩ := List.mem_map.mp ha
    rw [← he]
    simp [isFieldDeclLine_fieldLine]
  have h2 : ([("    \x7d").toList]).filter isFieldDeclLine = [] := rfl
  rw [h1, h2]
  simp

lemma filter_fieldDecl_flatMap (d : PyDict) :
    ∀ (ts : List (List Char)),
      (ts.flatMap (classBlock false d)).filter isFieldDeclLine =
        ts.flatMap (fun t => (entriesFor d t).map
          (fun e => fieldLine false e.2.1 e.1 e.2.2)) := by
  intro ts
  induction ts with
  | nil => rfl
  | cons t r ih =>
    rw [List.flatMap_cons, List.filter_append, filter_fieldDecl_classBlock, ih,
      List.flatMap_cons]

lemma renderLines_filter_fieldDecl (pkg : List Char) (d : PyDict) :
    (renderLines pkg d false).filter isFieldDeclLine =
      (fieldDecls d).map (fun e => fieldLine false e.2.2.1 e.2.1 e.2.2.2) := by
  unfold renderLines
  rw [List.filter_append, List.filter_append, List.filter_append]
  have h1 : (headerLines pkg).filter isFieldDeclLine = [] := by
    unfold headerLines
    rfl
  have h3 : (sharedBlock false d).filter isFieldDeclLine = [] := rfl
  have h4 : ([[('\x7d' : Char)]]).filter isFieldDeclLine = [] := rfl
  rw [h1, filter_fieldDecl_flatMap, h3, h4]
  unfold fieldDecls
  rw [List.map_flatMap]
  simp only [List.append_nil, List.nil_append]
  apply congrArg
  funext t
  rw [List.map_map]
  exact List.map_congr_left (fun e _ => rfl)

/-- C6 amended: the generated source contains one field declaration per occurrence
of a resolvable (resourceType, name) pair in the package's own symbol list, with
the javaType and value copied verbatim from the base table; in particular exactly
one when the list mentions the pair exactly once, but a duplicated line yields a
duplicated declaration.  Stated for lists with at most five distinct resource
types (one 8-slot CPython dict table, never resized); the field-declaration lines
of the rendered text correspond one to one to the flattened declaration list. -/
theorem field_decl_per_occurrence (own : List Char) (tbl : Table) (d : PyDict)
    (t n : List Char)
    (hok : buildRes own tbl = Except.ok d)
    (hsmall : ((ownTypes own).foldl dictOrderStep (emptySlots, [])).2.length ≤ 5) :
    (fieldDecls d).countP (fun e => e.1 == t && e.2.1 == n) =
      (ownPairs own).countP (fun p => p == (t, n))
    ∧ (∀ jt v, (t, n, jt, v) ∈ fieldDecls d → lookupTable tbl (t, n) = some (jt, v))
    ∧ (∀ pkg, (renderLines pkg d false).filter isFieldDeclLine =
        (fieldDecls d).map (fun e => fieldLine false e.2.2.1 e.2.1 e.2.2.2)) := by
  have hstate := buildResLines_state tbl (pyLines own) emptyPyDict d hok
  have hslots : d.slots =
      ((ownTypes own).foldl dictOrderStep (emptySlots, [])).1 := by
    have hfst := congrArg Prod.fst hstate
    simpa [emptyPyDict, itemKeys, ownTypes, ownPairs] using hfst
  have hkeys : itemKeys d =
      ((ownTypes own).foldl dictOrderStep (emptySlots, [])).2 := by
    have hsnd := congrArg Prod.snd hstate
    simpa [emptyPyDict, itemKeys, ownTypes, ownPairs] using hsnd
  have hinv := dictOrder_fold_inv (ownTypes own) (emptySlots, []) rfl (by simp)
      (by simp [emptySlots]) (by omega)
  have hto : typesOrder d =
      ((ownTypes own).foldl dictOrderStep (emptySlots, [])).1.filterMap id := by
    unfold typesOrder
    rw [hslots]
  have hperm : (typesOrder d).Perm (itemKeys d) := by
    rw [hto, hkeys]
    exact hinv.2
  have hnodup : (itemKeys d).Nodup := by
    rw [hkeys]
    exact hinv.1
  have hent : ∀ t', entriesFor d t' = (pyLines own).filterMap (ownEntryFor tbl t') := by
    intro t'
    have hback := buildResLines_entries tbl (pyLines own) emptyPyDict d t' hok
    simpa [emptyPyDict, entriesFor, itemsGet] using hback
  have hres := buildResLines_resolves tbl (pyLines own) emptyPyDict d hok
  have hK : (entriesFor d t).countP (fun en => en.1 == n) =
      (ownPairs own).countP (fun p => p == (t, n)) := by
    rw [hent t]
    exact countP_entries_eq_count tbl t n (pyLines own) hres
  refine ⟨?_, ?_, ?_⟩
  · have hcount := countP_flatMap_tagged d t n (typesOrder d)
    have hfd : fieldDecls d = (typesOrder d).flatMap
        (fun t' => (entriesFor d t').map (fun e => (t', e.1, e.2.1, e.2.2))) := rfl
    rw [hfd, hcount, hK]
    by_cases hmem : t ∈ itemKeys d
    · have h1 : (typesOrder d).countP (fun x => x == t) = 1 := by
        rw [hperm.countP_eq]
        exact countP_beq_one hnodup hmem
      rw [h1, Nat.one_mul]
    · have h0 : (typesOrder d).countP (fun x => x == t) = 0 := by
        rw [hperm.countP_eq]
        exact countP_beq_zero hmem
      have hp0 : (ownPairs own).countP (fun p => p == (t, n)) = 0 := by
        rw [List.countP_eq_zero]
        intro p hp hbeq
        have hpe : p = (t, n) := by simpa using hbeq
        subst hpe
        apply hmem
        rw [hkeys]
        apply dictOrder_fold_mem
        left
        exact List.mem_map_of_mem Prod.fst hp
      rw [h0, hp0, Nat.zero_mul]
  · intro jt v hmem
    have hfd : fieldDecls d = (typesOrder d).flatMap
        (fun t' => (entriesFor d t').map (fun e => (t', e.1, e.2.1, e.2.2))) := rfl
    rw [hfd] at hmem
    obtain ⟨t', _, hmem2⟩ := List.mem_flatMap.mp hmem
    obtain ⟨e, he, heq⟩ := List.mem_map.mp hmem2
    obtain ⟨n', jt', v'⟩ := e
    simp only [Prod.mk.injEq] at heq
    obtain ⟨ht', hn', hjt', hv'⟩ := heq
    rw [ht', hn', hjt', hv'] at he
    rw [hent t] at he
    obtain ⟨l, _, hoe⟩ := List.mem_filterMap.mp he
    unfold ownEntryFor at hoe
    cases hm2 : matchOwnLine l with
    | none => rw [hm2] at hoe; cases hoe
    | some q =>
      obtain ⟨t2, n2⟩ := q
      rw [hm2] at hoe
      dsimp only at hoe
      by_cases hte : t2 = t
      · rw [if_pos hte] at hoe
        cases hlk : lookupTable tbl (t2, n2) with
        | none => rw [hlk] at hoe; cases hoe
        | some jv0 =>
          obtain ⟨jt0, v0⟩ := jv0
          rw [hlk] at hoe
          simp at hoe
          obtain ⟨hn2, hjt0, hv0⟩ := hoe
          rw [hte, hn2, hjt0, hv0] at hlk
          exact hlk
      · rw [if_neg hte] at hoe
        cases hoe
  · intro pkg
    exact renderLines_filter_fieldDecl pkg d

/-- Witness for C6 amended at the duplicated-pair input. -/
theorem field_decl_per_occurrence_witness :
    (fieldDecls c6Dict).countP
        (fun e => e.1 == ("a").toList && e.2.1 == ("x").toList) =
      (ownPairs c6Own).countP (fun p => p == (("a").toList, ("x").toList))
    ∧ lookupTable c6Tbl ((("a").toList, ("x").toList)) =
        some ((("int").toList, ("0x7f01").toList))
    ∧ (renderLines (("p").toList) c6Dict false).filter isFieldDeclLine =
        (fieldDecls c6Dict).map (fun e => fieldLine false e.2.2.1 e.2.1 e.2.2.2) :=
  ⟨(field_decl_per_occurrence c6Own c6Tbl c6Dict (("a").toList) (("x").toList)
      (by decide) (by decide)).1,
   (field_decl_per_occurrence c6Own c6Tbl c6Dict (("a").toList) (("x").toList)
      (by decide) (by decide)).2.1 (("int").toList) (("0x7f01").toList) (by decide),
   (field_decl_per_occurrence c6Own c6Tbl c6Dict (("a").toList) (("x").toList)
      (by decide) (by decide)).2.2 (("p").toList)⟩

/-- C6 counterexample: an own-symbol-list that mentions the resolvable pair (a, x)
twice produces two field declarations for it, not exactly one as the claim
requires for every pair that appears in the list. -/
theorem field_decl_counterexample :
    ((buildRes c6Own c6Tbl).map (fun d => (fieldDecls d).countP
        (fun e => e.1 == ("a").toList && e.2.1 == ("x").toList))) = Except.ok 2
    ∧ (2 : Nat) ≠ 1 := by
  exact ⟨by decide, by decide⟩
